import Mathlib

set_option maxHeartbeats 1000000
set_option maxRecDepth 100000

/-!  Verification of the javadec decompiler (class-file reader, bytecode
disassembler, descriptor parser and control-flow-graph builder) against its
natural-language specification.  All definitions are shallow embeddings of
the Rust source: bytes are `Nat` values below 256, machine integers are
`Nat`/`Int` with explicit two's-complement conversions, fallible code
returns `Except`/`Option`, and aborts (unwrap/index failures) are `none`. -/

/-- Two's-complement reading of a 16-bit pattern (`as i16` on a `u16`). -/
def i16ofBits (n : Nat) : Int :=
  if n < 32768 then (n : Int) else (n : Int) - 65536

/-- Two's-complement reading of a 32-bit pattern (`as i32` on a `u32`). -/
def i32ofBits (n : Nat) : Int :=
  if n < 2147483648 then (n : Int) else (n : Int) - 4294967296

/-- Two's-complement reading of a 64-bit pattern (`i64` from a `u64`). -/
def i64ofBits (n : Nat) : Int :=
  if n < 9223372036854775808 then (n : Int) else (n : Int) - 18446744073709551616

/-- Two's-complement reading of an 8-bit pattern (`as i8` on a `u8`). -/
def i8ofBits (n : Nat) : Int :=
  if n < 128 then (n : Int) else (n : Int) - 256

/-- Truncation of a signed value to a `u16` (Rust `as u16`). -/
def u16ofInt (z : Int) : Nat := (z % 65536).toNat

/-- Truncation of a signed value to a `u32` (Rust `as u32`). -/
def u32ofInt (z : Int) : Nat := (z % 4294967296).toNat

/-- Rust `pos as i32` on a `u64` cursor position: wrap to 32 bits, signed. -/
def i32ofNat (n : Nat) : Int := i32ofBits (n % 4294967296)

/-! ## Modified UTF-8 decoder (javaclass-rs `mod mutf8`) -/

inductive MUtf8Error where
  | MissingByte
  | UnknownByte
  | InvalidChar
deriving DecidableEq

/-- Bitwise complement of a byte (Rust `!b` on `u8`). -/
def notU8 (b : Nat) : Nat := 255 - b % 256

/-- `std::char::from_u32` succeeds exactly on Unicode scalar values. -/
def validScalar (n : Nat) : Bool := n < 0xD800 || (0xDFFF < n && n < 0x110000)

/-- `mutf8::to_string`, decoding a byte list to a list of code points.
The continuation-byte conditions are transcribed exactly as the source
computes them: in Rust `!b2 & m == v` parses as `((!b2) & m) == v` with `!`
the bitwise complement, so the source rejects a byte iff its complement
masked by `m` equals `v`. -/
def mutf8_to_string : List Nat → Except MUtf8Error (List Nat)
  | [] => .ok []
  | b :: rest =>
    if b = 0b11101101 then
      match rest with
      | [] => .error .MissingByte
      | b2 :: r2 =>
        if notU8 b2 &&& 0b11110000 = 0b10100000 then .error .UnknownByte else
        match r2 with
        | [] => .error .MissingByte
        | b3 :: r3 =>
          if notU8 b3 &&& 0b11000000 = 0b10000000 then .error .UnknownByte else
          match r3 with
          | [] => .error .MissingByte
          | bmid :: r4 =>
            if notU8 bmid &&& 0xFF = 0b11101101 then .error .UnknownByte else
            match r4 with
            | [] => .error .MissingByte
            | b4 :: r5 =>
              if notU8 b4 &&& 0b11110000 = 0b10110000 then .error .UnknownByte else
              match r5 with
              | [] => .error .MissingByte
              | b5 :: r6 =>
                if notU8 b5 &&& 0b11000000 = 0b10000000 then .error .UnknownByte else
                let codepoint : Nat := 0x10000 + ((b2 &&& 0x0F) <<< 16)
                  + ((b3 &&& 0x3F) <<< 10) + ((b4 &&& 0x0F) <<< 6) + (b5 &&& 0x3F)
                if validScalar codepoint then
                  (mutf8_to_string r6).map (fun s => codepoint :: s)
                else .error .InvalidChar
    else if b &&& 0b11110000 = 0b11100000 then
      match rest with
      | [] => .error .MissingByte
      | b2 :: r2 =>
        if notU8 b2 &&& 0b11000000 = 0b10000000 then .error .UnknownByte else
        match r2 with
        | [] => .error .MissingByte
        | b3 :: r3 =>
          let codepoint : Nat := (b3 &&& 0b111111) ||| ((b2 &&& 0b111111) <<< 6)
            ||| ((b &&& 0b11111) <<< 12)
          if validScalar codepoint then
            (mutf8_to_string r3).map (fun s => codepoint :: s)
          else .error .InvalidChar
    else if b &&& 0b11100000 = 0b11000000 then
      match rest with
      | [] => .error .MissingByte
      | b2 :: r2 =>
        if notU8 b2 &&& 0b11000000 = 0b10000000 then .error .UnknownByte else
        let codepoint : Nat := (b2 &&& 0b111111) ||| ((b &&& 0b11111) <<< 6)
        if validScalar codepoint then
          (mutf8_to_string r2).map (fun s => codepoint :: s)
        else .error .InvalidChar
    else if b &&& 0b10000000 = 0 then
      (mutf8_to_string rest).map (fun s => b :: s)
    else .error .UnknownByte

/-! ## Method-descriptor parser (`mod descriptors` in src/lib.rs)

The source's `parse_field_type` does not consume the leading `'['` before
recursing for the array element type, so it recurses forever on any array
descriptor.  The embedding therefore takes a fuel argument; `none` marks
fuel exhaustion, i.e. an execution that never returns. -/

inductive DescriptorParseError where
  | EOF
  | Expect (expected : String) (got : Char)
deriving DecidableEq

inductive FieldType where
  | Void
  | Byte
  | Char
  | Double
  | Float
  | Int
  | Long
  | Short
  | Boolean
  | Reference (name : String)
  | Array (inner : FieldType)
deriving DecidableEq

/-- The `'L'` branch of `parse_field_type`: `while peek(iter)? != ';' do
push + consume`.  Returns the class name and the rest of the input, still
beginning with the `';'` (which the caller's trailing `consume` eats). -/
def parseRefName : List Char → Except DescriptorParseError (List Char × List Char)
  | [] => .error .EOF
  | c :: rest =>
    if c = ';' then .ok ([], c :: rest)
    else
      match parseRefName rest with
      | .error e => .error e
      | .ok (n, r) => .ok (c :: n, r)

/-- `descriptors::parse_field_type`.  The `'['` arm recurses on the
un-advanced iterator, exactly as the source does. -/
def parse_field_type : Nat → List Char → Option (Except DescriptorParseError (FieldType × List Char))
  | 0, _ => none
  | fuel+1, iter =>
    match iter.head? with
    | none => some (.error .EOF)
    | some ch =>
      let step : Option (Except DescriptorParseError (FieldType × List Char)) :=
        if ch = 'B' then some (.ok (.Byte, iter))
        else if ch = 'C' then some (.ok (.Char, iter))
        else if ch = 'S' then some (.ok (.Short, iter))
        else if ch = 'Z' then some (.ok (.Boolean, iter))
        else if ch = 'J' then some (.ok (.Long, iter))
        else if ch = 'I' then some (.ok (.Int, iter))
        else if ch = 'D' then some (.ok (.Double, iter))
        else if ch = 'F' then some (.ok (.Float, iter))
        else if ch = 'L' then
          match parseRefName (iter.drop 1) with
          | .error e => some (.error e)
          | .ok (n, r) => some (.ok (.Reference (String.mk n), r))
        else if ch = '[' then
          match parse_field_type fuel iter with
          | none => none
          | some (.error e) => some (.error e)
          | some (.ok (t, r)) => some (.ok (.Array t, r))
        else some (.error (.Expect "field type" ch))
      match step with
      | none => none
      | some (.error e) => some (.error e)
      | some (.ok (t, r)) =>
        match r with
        | [] => some (.error .EOF)
        | _ :: r2 => some (.ok (t, r2))

/-- `descriptors::parse_return_desc`: accept `'V'` or parse a field type. -/
def parse_return_desc (fuel : Nat) (iter : List Char) : Option (Except DescriptorParseError (FieldType × List Char)) :=
  match iter.head? with
  | none => some (.error .EOF)
  | some c =>
    if c = 'V' then some (.ok (.Void, iter.drop 1))
    else parse_field_type fuel iter

/-- The parameter loop of `parse_method`: `while peek(iter)? != ')'`. -/
def parseParams : Nat → List Char → Option (Except DescriptorParseError (List FieldType × List Char))
  | 0, _ => none
  | fuel+1, iter =>
    match iter.head? with
    | none => some (.error .EOF)
    | some ch =>
      if ch = ')' then some (.ok ([], iter))
      else
        match parse_field_type (fuel+1) iter with
        | none => none
        | some (.error e) => some (.error e)
        | some (.ok (t, r)) =>
          match parseParams fuel r with
          | none => none
          | some (.error e) => some (.error e)
          | some (.ok (ts, r2)) => some (.ok (t :: ts, r2))

/-- `descriptors::parse_method`, with explicit fuel. -/
def parse_method_fuel (fuel : Nat) (iter : List Char) : Option (Except DescriptorParseError (List FieldType × FieldType)) :=
  match iter.head? with
  | none => some (.error .EOF)
  | some ch =>
    if ch = '(' then
      match parseParams fuel (iter.drop 1) with
      | none => none
      | some (.error e) => some (.error e)
      | some (.ok (params, r)) =>
        match r.head? with
        | none => some (.error .EOF)
        | some c2 =>
          if c2 = ')' then
            match parse_return_desc fuel (r.drop 1) with
            | none => none
            | some (.error e) => some (.error e)
            | some (.ok (ret, _)) => some (.ok (params, ret))
          else some (.error (.Expect ")" c2))
    else some (.error (.Expect "(" ch))

/-- `descriptors::parse_method` with enough fuel for every terminating run
(the loops consume at least one character per unit of fuel). -/
def parse_method (iter : List Char) : Option (Except DescriptorParseError (List FieldType × FieldType)) :=
  parse_method_fuel (iter.length + 2) iter

/-! ## Constant pool (javaclass-rs) -/

inductive ClassFileError where
  | InvalidMagic
  | Read
  | InvalidCPType
  | InvalidCPEntry
  | MUtf8Format
  | EndOfFile
  | MoreData
deriving DecidableEq

/-- `read_u8`: one byte from position `cur`, short read is an error. -/
def readU8 {e : Type} (eof : e) (data : List Nat) (cur : Nat) : Except e (Nat × Nat) :=
  if cur < data.length then .ok (data.getD cur 0, cur + 1) else .error eof

/-- `read_u16`: two bytes big-endian. -/
def readU16 {e : Type} (eof : e) (data : List Nat) (cur : Nat) : Except e (Nat × Nat) :=
  if cur + 2 ≤ data.length then
    .ok (data.getD cur 0 * 256 + data.getD (cur + 1) 0, cur + 2)
  else .error eof

/-- `read_u32`: four bytes big-endian. -/
def readU32 {e : Type} (eof : e) (data : List Nat) (cur : Nat) : Except e (Nat × Nat) :=
  if cur + 4 ≤ data.length then
    .ok (((data.getD cur 0 * 256 + data.getD (cur + 1) 0) * 256
      + data.getD (cur + 2) 0) * 256 + data.getD (cur + 3) 0, cur + 4)
  else .error eof

/-- `ConstantPoolInfo`.  `Float`/`Double` hold the raw IEEE-754 bit
pattern (the source transmutes the bits; no arithmetic is done on them). -/
inductive ConstantPoolInfo where
  | Class (name_index : Nat)
  | FieldRef (class_index : Nat) (name_and_type_index : Nat)
  | MethodRef (class_index : Nat) (name_and_type_index : Nat)
  | InterfaceMethodRef (class_index : Nat) (name_and_type_index : Nat)
  | String (string_index : Nat)
  | Integer (data : Int)
  | Float (data : Nat)
  | Long (data : Int)
  | Double (data : Nat)
  | NameAndType (name_index : Nat) (descriptor_index : Nat)
  | Utf8 (length : Nat) (string : List Nat)
  | MethodHandle (reference_kind : Nat) (reference_index : Nat)
  | MethodType (descriptor_index : Nat)
  | InvokeDynamic (bootstrap_method_attr_index : Nat) (name_and_type_index : Nat)
deriving DecidableEq

/-- `HashMap::insert`: replace in place when the key is present, else add. -/
def hmInsert {b : Type} (m : List (Nat × b)) (k : Nat) (v : b) : List (Nat × b) :=
  if m.any (fun p => p.1 == k) then m.map (fun p => if p.1 = k then (k, v) else p)
  else m ++ [(k, v)]

/-- `HashMap::get`. -/
def hmGet {b : Type} (m : List (Nat × b)) (k : Nat) : Option b :=
  (m.find? (fun p => p.1 == k)).map (fun p => p.2)

/-- `ConstantPool::get_entry`. -/
def get_entry (pool : List (Nat × ConstantPoolInfo)) (index : Nat) :
    Except ClassFileError ConstantPoolInfo :=
  match hmGet pool index with
  | none => .error .InvalidCPEntry
  | some e => .ok e

/-- Reads `n` raw bytes (the `Utf8` payload loop). -/
def readBytes {e : Type} (eof : e) : Nat → List Nat → Nat → Except e (List Nat × Nat)
  | 0, _, cur => .ok ([], cur)
  | n+1, data, cur =>
    match readU8 eof data cur with
    | .error er => .error er
    | .ok (byte, c2) =>
      match readBytes eof n data c2 with
      | .error er => .error er
      | .ok (bs, c3) => .ok (byte :: bs, c3)

/-- One iteration of `read_constant_pool`: the tag dispatch.  Returns the
tag, the entry and the new position.  For `Long`/`Double` the source reads
`high` then `low` (big-endian words) and transmutes the array
`[low, high]`, which on the little-endian targets places `low` in the
least-significant word: the 64-bit pattern is `high * 2^32 + low`. -/
def read_cp_entry (data : List Nat) (cur : Nat) :
    Except ClassFileError (Nat × ConstantPoolInfo × Nat) :=
  match readU8 ClassFileError.EndOfFile data cur with
  | .error er => .error er
  | .ok (cp_type, c1) =>
    match cp_type with
    | 7 =>
      match readU16 ClassFileError.EndOfFile data c1 with
      | .error er => .error er
      | .ok (ni, c2) => .ok (cp_type, .Class ni, c2)
    | 9 =>
      match readU16 ClassFileError.EndOfFile data c1 with
      | .error er => .error er
      | .ok (ci, c2) =>
        match readU16 ClassFileError.EndOfFile data c2 with
        | .error er => .error er
        | .ok (nti, c3) => .ok (cp_type, .FieldRef ci nti, c3)
    | 10 =>
      match readU16 ClassFileError.EndOfFile data c1 with
      | .error er => .error er
      | .ok (ci, c2) =>
        match readU16 ClassFileError.EndOfFile data c2 with
        | .error er => .error er
        | .ok (nti, c3) => .ok (cp_type, .MethodRef ci nti, c3)
    | 11 =>
      match readU16 ClassFileError.EndOfFile data c1 with
      | .error er => .error er
      | .ok (ci, c2) =>
        match readU16 ClassFileError.EndOfFile data c2 with
        | .error er => .error er
        | .ok (nti, c3) => .ok (cp_type, .InterfaceMethodRef ci nti, c3)
    | 8 =>
      match readU16 ClassFileError.EndOfFile data c1 with
      | .error er => .error er
      | .ok (si, c2) => .ok (cp_type, .String si, c2)
    | 3 =>
      match readU32 ClassFileError.EndOfFile data c1 with
      | .error er => .error er
      | .ok (bits, c2) => .ok (cp_type, .Integer (i32ofBits bits), c2)
    | 4 =>
      match readU32 ClassFileError.EndOfFile data c1 with
      | .error er => .error er
      | .ok (bits, c2) => .ok (cp_type, .Float bits, c2)
    | 5 =>
      match readU32 ClassFileError.EndOfFile data c1 with
      | .error er => .error er
      | .ok (high, c2) =>
        match readU32 ClassFileError.EndOfFile data c2 with
        | .error er => .error er
        | .ok (low, c3) => .ok (cp_type, .Long (i64ofBits (high * 4294967296 + low)), c3)
    | 6 =>
      match readU32 ClassFileError.EndOfFile data c1 with
      | .error er => .error er
      | .ok (high, c2) =>
        match readU32 ClassFileError.EndOfFile data c2 with
        | .error er => .error er
        | .ok (low, c3) => .ok (cp_type, .Double (high * 4294967296 + low), c3)
    | 12 =>
      match readU16 ClassFileError.EndOfFile data c1 with
      | .error er => .error er
      | .ok (ni, c2) =>
        match readU16 ClassFileError.EndOfFile data c2 with
        | .error er => .error er
        | .ok (di, c3) => .ok (cp_type, .NameAndType ni di, c3)
    | 1 =>
      match readU16 ClassFileError.EndOfFile data c1 with
      | .error er => .error er
      | .ok (len, c2) =>
        match readBytes ClassFileError.EndOfFile len data c2 with
        | .error er => .error er
        | .ok (bytes, c3) =>
          match mutf8_to_string bytes with
          | .error _ => .error .MUtf8Format
          | .ok str => .ok (cp_type, .Utf8 len str, c3)
    | 15 =>
      match readU8 ClassFileError.EndOfFile data c1 with
      | .error er => .error er
      | .ok (rk, c2) =>
        match readU16 ClassFileError.EndOfFile data c2 with
        | .error er => .error er
        | .ok (ri, c3) => .ok (cp_type, .MethodHandle rk ri, c3)
    | 16 =>
      match readU16 ClassFileError.EndOfFile data c1 with
      | .error er => .error er
      | .ok (di, c2) => .ok (cp_type, .MethodType di, c2)
    | 18 =>
      match readU16 ClassFileError.EndOfFile data c1 with
      | .error er => .error er
      | .ok (bi, c2) =>
        match readU16 ClassFileError.EndOfFile data c2 with
        | .error er => .error er
        | .ok (nti, c3) => .ok (cp_type, .InvokeDynamic bi nti, c3)
    | _ => .error .InvalidCPType

/-- The `while i < constant_pool_count` loop of `read_constant_pool`.
The index `i` advances by 2 after a `Long`/`Double` tag (5 or 6).  `fuel`
is an upper bound on the number of iterations (the loop runs at most
`count` times since `i` strictly increases); exhaustion is unreachable
when started with `fuel = count`. -/
def read_cp_loop (data : List Nat) (count : Nat) :
    Nat → Nat → Nat → List (Nat × ConstantPoolInfo) →
    Except ClassFileError (List (Nat × ConstantPoolInfo) × Nat)
  | fuel, cur, i, pool =>
    if i < count then
      match fuel with
      | 0 => .error .Read
      | fuel'+1 =>
        match read_cp_entry data cur with
        | .error er => .error er
        | .ok (t, e, c2) =>
          if t = 5 ∨ t = 6 then read_cp_loop data count fuel' c2 (i + 2) (hmInsert pool i e)
          else read_cp_loop data count fuel' c2 (i + 1) (hmInsert pool i e)
    else .ok (pool, cur)

/-- `read_constant_pool`: read the count, then the loop from index 1. -/
def read_constant_pool (data : List Nat) (cur : Nat) :
    Except ClassFileError (List (Nat × ConstantPoolInfo) × Nat) :=
  match readU16 .EndOfFile data cur with
  | .error er => .error er
  | .ok (count, c1) => read_cp_loop data count count c1 1 []

/-- `Long`/`Double` entries: the tags that make the loader skip a slot. -/
def isLongOrDouble : ConstantPoolInfo → Bool
  | .Long _ => true
  | .Double _ => true
  | _ => false

/-! ## Bytecode disassembler (src/disassembler.rs) -/

inductive DecompilerError where
  | UnknownInstr (instruction : Nat)
  | EndOfCode
  | Read
  | UnknownArrayType (type_id : Nat)
  | StackSize (size : Nat)
  | ClassFileErr (error : ClassFileError)
  | DescriptorParsing (error : DescriptorParseError)
  | EmptyStack
deriving DecidableEq

inductive ArrayType where
  | Boolean
  | Char
  | Float
  | Double
  | Byte
  | Short
  | Int
  | Long
deriving DecidableEq

/-- `Instruction`.  Pool and local indices are the `u16` payloads as `Nat`;
`branch` fields are the absolute `u16` targets; switch targets are `u32`.
Immediates logically signed in the source (`i8`/`i16`/`i32`/`i64`) are
`Int`.  The `f32`/`f64` constant immediates (`0.0`/`1.0`/`2.0`) are
represented by the corresponding small naturals, no arithmetic touches
them. -/
inductive Instruction where
  | SALoad
  | TableSwitch (default : Nat) (low : Nat) (high : Nat) (offsets : List Nat)
  | Swap
  | SAStore
  | SIPush (value : Int)
  | NewArray (array_type : ArrayType)
  | Pop2
  | IConst (value : Int)
  | FConst (value : Nat)
  | DConst (value : Nat)
  | LConst (value : Int)
  | IAdd
  | FAdd
  | InvokeSpecial (index : Nat)
  | InvokeStatic (index : Nat)
  | InvokeVirtual (index : Nat)
  | InvokeInterface (index : Nat)
  | PutField (index : Nat)
  | GetField (index : Nat)
  | PutStatic (index : Nat)
  | Return
  | Dup
  | DupX1
  | DupX2
  | Dup2
  | Dup2X1
  | Dup2X2
  | Pop
  | DAdd
  | DDiv
  | D2i
  | D2f
  | D2l
  | AReturn
  | CheckCast (index : Nat)
  | F2i
  | AConstNull
  | BIPush (value : Int)
  | LoadConst (index : Nat)
  | DCmpL
  | DCmpG
  | ArrayLength
  | AThrow
  | DALoad
  | CALoad
  | BALoad
  | AALoad
  | FALoad
  | DAStore
  | CAStore
  | BAStore
  | AAStore
  | FAStore
  | ANewArray (index : Nat)
  | DMul
  | DNeg
  | DRem
  | DReturn
  | FSub
  | FMul
  | FNeg
  | FRem
  | FReturn
  | FCmpL
  | FCmpG
  | DSub
  | FDiv
  | F2l
  | F2d
  | GetStatic (index : Nat)
  | I2l
  | I2d
  | I2s
  | I2c
  | I2b
  | I2f
  | IALoad
  | IAStore
  | IMul
  | IDiv
  | IAnd
  | INeg
  | InstanceOf (index : Nat)
  | InvokeDynamic (index : Nat)
  | L2i
  | L2d
  | L2f
  | LALoad
  | LAStore
  | LAdd
  | LAnd
  | LOr
  | LXOr
  | LSub
  | LMul
  | LDiv
  | ISub
  | IRem
  | LNeg
  | IShL
  | IShR
  | IUShR
  | IOr
  | IXOr
  | LCmp
  | IReturn
  | LReturn
  | LRem
  | LShL
  | LShR
  | LUShR
  | LookupSwitch (default : Nat) (pairs : List (Int × Nat))
  | Nop
  | MonitorEnter
  | MonitorExit
  | MultiANewArray (index : Nat) (dimensions : Nat)
  | New (index : Nat)
  | Ret (index : Nat)
  | AStore (index : Nat)
  | LStore (index : Nat)
  | IStore (index : Nat)
  | DStore (index : Nat)
  | FStore (index : Nat)
  | FLoad (index : Nat)
  | ILoad (index : Nat)
  | ALoad (index : Nat)
  | DLoad (index : Nat)
  | LLoad (index : Nat)
  | IInc (index : Nat) (value : Int)
  | IfACmpEq (branch : Nat)
  | IfACmpNe (branch : Nat)
  | IfICmpEq (branch : Nat)
  | IfICmpNe (branch : Nat)
  | IfICmpLt (branch : Nat)
  | IfICmpGe (branch : Nat)
  | IfICmpGt (branch : Nat)
  | IfICmpLe (branch : Nat)
  | IfNull (branch : Nat)
  | IfNonNull (branch : Nat)
  | IfEq (branch : Nat)
  | IfNe (branch : Nat)
  | IfLt (branch : Nat)
  | IfGe (branch : Nat)
  | IfGt (branch : Nat)
  | IfLe (branch : Nat)
  | Goto (branch : Nat)
  | JSr (branch : Nat)

/-- The repeated source expression
`(pos + ((read_u16(data)? as i16) as i32)) as u16`: a 16-bit offset,
sign-extended, added to `pos` and truncated to `u16`. -/
def readBranch16 (data : List Nat) (cur : Nat) (pos : Int) :
    Except DecompilerError (Nat × Nat) :=
  match readU16 DecompilerError.EndOfCode data cur with
  | .error er => .error er
  | .ok (off, c2) => .ok (u16ofInt (pos + i16ofBits off), c2)

/-- The repeated source pattern `if wide { read_u16 } else { read_u8 as u16 }`. -/
def readIndexW (wide : Bool) (data : List Nat) (cur : Nat) :
    Except DecompilerError (Nat × Nat) :=
  if wide then readU16 DecompilerError.EndOfCode data cur
  else readU8 DecompilerError.EndOfCode data cur

/-- `tableswitch` offset loop: each `u32` is read, reinterpreted signed,
added to `pos` and truncated to `u32`. -/
def readOffsets : Nat → List Nat → Nat → Int → Except DecompilerError (List Nat × Nat)
  | 0, _, cur, _ => .ok ([], cur)
  | n+1, data, cur, pos =>
    match readU32 DecompilerError.EndOfCode data cur with
    | .error er => .error er
    | .ok (off, c2) =>
      match readOffsets n data c2 pos with
      | .error er => .error er
      | .ok (rest, c3) => .ok (u32ofInt (pos + i32ofBits off) :: rest, c3)

/-- `lookupswitch` pair loop: `(match_value as i32, absolute offset)`. -/
def readMatchPairs : Nat → List Nat → Nat → Int → Except DecompilerError (List (Int × Nat) × Nat)
  | 0, _, cur, _ => .ok ([], cur)
  | n+1, data, cur, pos =>
    match readU32 DecompilerError.EndOfCode data cur with
    | .error er => .error er
    | .ok (m, c2) =>
      match readU32 DecompilerError.EndOfCode data c2 with
      | .error er => .error er
      | .ok (off, c3) =>
        match readMatchPairs n data c3 pos with
        | .error er => .error er
        | .ok (rest, c4) => .ok ((i32ofBits m, u32ofInt (pos + i32ofBits off)) :: rest, c4)

/-- The switch padding count computed by the source at byte position `p`
(the position just after the opcode byte):
`(1 + ((p - 1) / 4)) * 4 - p`. -/
def switchPad (p : Nat) : Nat := (1 + (p - 1) / 4) * 4 - p

/-- `read_instruction`.  `cur` is the cursor position, `pos` the
instruction start passed by `disassemble` (an `i32` in the source), `wide`
the prefix flag.  `fuel` bounds the `wide`-prefix recursion (each step
consumes the prefix byte, so `data.length - cur + 1` from the wrapper is
never exhausted). -/
def read_instruction : Nat → List Nat → Nat → Int → Bool → Except DecompilerError (Instruction × Nat)
  | 0, _, _, _, _ => .error .EndOfCode
  | fuel+1, data, cur, pos, wide =>
    match readU8 DecompilerError.EndOfCode data cur with
    | .error er => .error er
    | .ok (code, c1) =>
      match code with
      | 0x0 => .ok (.Nop, c1)
      | 0x1 => .ok (.AConstNull, c1)
      | 0x2 => .ok (.IConst (-1), c1)
      | 0x3 => .ok (.IConst 0, c1)
      | 0x4 => .ok (.IConst 1, c1)
      | 0x5 => .ok (.IConst 2, c1)
      | 0x6 => .ok (.IConst 3, c1)
      | 0x7 => .ok (.IConst 4, c1)
      | 0x8 => .ok (.IConst 5, c1)
      | 0x9 => .ok (.LConst 0, c1)
      | 0xa => .ok (.LConst 1, c1)
      | 0xb => .ok (.FConst 0, c1)
      | 0xc => .ok (.FConst 1, c1)
      | 0xd => .ok (.FConst 2, c1)
      | 0xe => .ok (.DConst 0, c1)
      | 0xf => .ok (.DConst 1, c1)
      | 0x10 => do
        let (v, c2) ← readU8 DecompilerError.EndOfCode data c1
        pure (.BIPush (i8ofBits v), c2)
      | 0x11 => do
        let (v, c2) ← readU16 DecompilerError.EndOfCode data c1
        pure (.SIPush (i16ofBits v), c2)
      | 0x12 => do
        let (v, c2) ← readU8 DecompilerError.EndOfCode data c1
        pure (.LoadConst v, c2)
      | 0x13 => do
        let (v, c2) ← readU16 DecompilerError.EndOfCode data c1
        pure (.LoadConst v, c2)
      | 0x14 => do
        let (v, c2) ← readU16 DecompilerError.EndOfCode data c1
        pure (.LoadConst v, c2)
      | 0x15 => do
        let (v, c2) ← readIndexW wide data c1
        pure (.ILoad v, c2)
      | 0x16 => do
        let (v, c2) ← readIndexW wide data c1
        pure (.LLoad v, c2)
      | 0x17 => do
        let (v, c2) ← readIndexW wide data c1
        pure (.FLoad v, c2)
      | 0x18 => do
        let (v, c2) ← readIndexW wide data c1
        pure (.DLoad v, c2)
      | 0x19 => do
        let (v, c2) ← readIndexW wide data c1
        pure (.ALoad v, c2)
      | 0x1a => .ok (.ILoad 0, c1)
      | 0x1b => .ok (.ILoad 1, c1)
      | 0x1c => .ok (.ILoad 2, c1)
      | 0x1d => .ok (.ILoad 3, c1)
      | 0x1e => .ok (.LLoad 0, c1)
      | 0x1f => .ok (.LLoad 1, c1)
      | 0x20 => .ok (.LLoad 2, c1)
      | 0x21 => .ok (.LLoad 3, c1)
      | 0x22 => .ok (.FLoad 0, c1)
      | 0x23 => .ok (.FLoad 1, c1)
      | 0x24 => .ok (.FLoad 2, c1)
      | 0x25 => .ok (.FLoad 3, c1)
      | 0x26 => .ok (.DLoad 0, c1)
      | 0x27 => .ok (.DLoad 1, c1)
      | 0x28 => .ok (.DLoad 2, c1)
      | 0x29 => .ok (.DLoad 3, c1)
      | 0x2a => .ok (.ALoad 0, c1)
      | 0x2b => .ok (.ALoad 1, c1)
      | 0x2c => .ok (.ALoad 2, c1)
      | 0x2d => .ok (.ALoad 3, c1)
      | 0x2e => .ok (.IALoad, c1)
      | 0x2f => .ok (.LALoad, c1)
      | 0x30 => .ok (.FALoad, c1)
      | 0x31 => .ok (.DALoad, c1)
      | 0x32 => .ok (.AALoad, c1)
      | 0x33 => .ok (.BALoad, c1)
      | 0x34 => .ok (.CALoad, c1)
      | 0x35 => .ok (.SALoad, c1)
      | 0x36 => do
        let (v, c2) ← readIndexW wide data c1
        pure (.IStore v, c2)
      | 0x37 => do
        let (v, c2) ← readIndexW wide data c1
        pure (.LStore v, c2)
      | 0x38 => do
        let (v, c2) ← readIndexW wide data c1
        pure (.FStore v, c2)
      | 0x39 => do
        let (v, c2) ← readIndexW wide data c1
        pure (.DStore v, c2)
      | 0x3a => do
        let (v, c2) ← readIndexW wide data c1
        pure (.AStore v, c2)
      | 0x3b => .ok (.IStore 0, c1)
      | 0x3c => .ok (.IStore 1, c1)
      | 0x3d => .ok (.IStore 2, c1)
      | 0x3e => .ok (.IStore 3, c1)
      | 0x3f => .ok (.LStore 0, c1)
      | 0x40 => .ok (.LStore 1, c1)
      | 0x41 => .ok (.LStore 2, c1)
      | 0x42 => .ok (.LStore 3, c1)
      | 0x43 => .ok (.FStore 0, c1)
      | 0x44 => .ok (.FStore 1, c1)
      | 0x45 => .ok (.FStore 2, c1)
      | 0x46 => .ok (.FStore 3, c1)
      | 0x47 => .ok (.DStore 0, c1)
      | 0x48 => .ok (.DStore 1, c1)
      | 0x49 => .ok (.DStore 2, c1)
      | 0x4a => .ok (.DStore 3, c1)
      | 0x4b => .ok (.AStore 0, c1)
      | 0x4c => .ok (.AStore 1, c1)
      | 0x4d => .ok (.AStore 2, c1)
      | 0x4e => .ok (.AStore 3, c1)
      | 0x4f => .ok (.IAStore, c1)
      | 0x50 => .ok (.LAStore, c1)
      | 0x51 => .ok (.FAStore, c1)
      | 0x52 => .ok (.DAStore, c1)
      | 0x53 => .ok (.AAStore, c1)
      | 0x54 => .ok (.BAStore, c1)
      | 0x55 => .ok (.CAStore, c1)
      | 0x56 => .ok (.SAStore, c1)
      | 0x57 => .ok (.Pop, c1)
      | 0x58 => .ok (.Pop2, c1)
      | 0x59 => .ok (.Dup, c1)
      | 0x5a => .ok (.DupX1, c1)
      | 0x5b => .ok (.DupX2, c1)
      | 0x5c => .ok (.Dup2, c1)
      | 0x5d => .ok (.Dup2X1, c1)
      | 0x5e => .ok (.Dup2X2, c1)
      | 0x5f => .ok (.Swap, c1)
      | 0x60 => .ok (.IAdd, c1)
      | 0x61 => .ok (.LAdd, c1)
      | 0x62 => .ok (.FAdd, c1)
      | 0x63 => .ok (.DAdd, c1)
      | 0x64 => .ok (.ISub, c1)
      | 0x65 => .ok (.LSub, c1)
      | 0x66 => .ok (.FSub, c1)
      | 0x67 => .ok (.DSub, c1)
      | 0x68 => .ok (.IMul, c1)
      | 0x69 => .ok (.LMul, c1)
      | 0x6a => .ok (.FMul, c1)
      | 0x6b => .ok (.DMul, c1)
      | 0x6c => .ok (.IDiv, c1)
      | 0x6d => .ok (.LDiv, c1)
      | 0x6e => .ok (.FDiv, c1)
      | 0x6f => .ok (.DDiv, c1)
      | 0x70 => .ok (.IRem, c1)
      | 0x71 => .ok (.LRem, c1)
      | 0x72 => .ok (.FRem, c1)
      | 0x73 => .ok (.DRem, c1)
      | 0x74 => .ok (.INeg, c1)
      | 0x75 => .ok (.LNeg, c1)
      | 0x76 => .ok (.FNeg, c1)
      | 0x77 => .ok (.DNeg, c1)
      | 0x78 => .ok (.IShL, c1)
      | 0x79 => .ok (.LShL, c1)
      | 0x7a => .ok (.IShR, c1)
      | 0x7b => .ok (.LShR, c1)
      | 0x7c => .ok (.IUShR, c1)
      | 0x7d => .ok (.LUShR, c1)
      | 0x7e => .ok (.IAnd, c1)
      | 0x7f => .ok (.LAnd, c1)
      | 0x80 => .ok (.IOr, c1)
      | 0x81 => .ok (.LOr, c1)
      | 0x82 => .ok (.IXOr, c1)
      | 0x83 => .ok (.LXOr, c1)
      | 0x84 => do
        let (idx, c2) ← readIndexW wide data c1
        if wide then do
          let (v, c3) ← readU16 DecompilerError.EndOfCode data c2
          pure (.IInc idx (i16ofBits v), c3)
        else do
          let (v, c3) ← readU8 DecompilerError.EndOfCode data c2
          pure (.IInc idx (i8ofBits v), c3)
      | 0x85 => .ok (.I2l, c1)
      | 0x86 => .ok (.I2f, c1)
      | 0x87 => .ok (.I2d, c1)
      | 0x88 => .ok (.L2i, c1)
      | 0x89 => .ok (.L2f, c1)
      | 0x8a => .ok (.L2d, c1)
      | 0x8b => .ok (.F2i, c1)
      | 0x8c => .ok (.F2l, c1)
      | 0x8d => .ok (.F2d, c1)
      | 0x8e => .ok (.D2i, c1)
      | 0x8f => .ok (.D2l, c1)
      | 0x90 => .ok (.D2f, c1)
      | 0x91 => .ok (.I2b, c1)
      | 0x92 => .ok (.I2c, c1)
      | 0x93 => .ok (.I2s, c1)
      | 0x94 => .ok (.LCmp, c1)
      | 0x95 => .ok (.FCmpL, c1)
      | 0x96 => .ok (.FCmpG, c1)
      | 0x97 => .ok (.DCmpL, c1)
      | 0x98 => .ok (.DCmpG, c1)
      | 0x99 => do
        let (b, c2) ← readBranch16 data c1 pos
        pure (.IfEq b, c2)
      | 0x9a => do
        let (b, c2) ← readBranch16 data c1 pos
        pure (.IfNe b, c2)
      | 0x9b => do
        let (b, c2) ← readBranch16 data c1 pos
        pure (.IfLt b, c2)
      | 0x9c => do
        let (b, c2) ← readBranch16 data c1 pos
        pure (.IfGe b, c2)
      | 0x9d => do
        let (b, c2) ← readBranch16 data c1 pos
        pure (.IfGt b, c2)
      | 0x9e => do
        let (b, c2) ← readBranch16 data c1 pos
        pure (.IfLe b, c2)
      | 0x9f => do
        let (b, c2) ← readBranch16 data c1 pos
        pure (.IfICmpEq b, c2)
      | 0xa0 => do
        let (b, c2) ← readBranch16 data c1 pos
        pure (.IfICmpNe b, c2)
      | 0xa1 => do
        let (b, c2) ← readBranch16 data c1 pos
        pure (.IfICmpLt b, c2)
      | 0xa2 => do
        let (b, c2) ← readBranch16 data c1 pos
        pure (.IfICmpGe b, c2)
      | 0xa3 => do
        let (b, c2) ← readBranch16 data c1 pos
        pure (.IfICmpGt b, c2)
      | 0xa4 => do
        let (b, c2) ← readBranch16 data c1 pos
        pure (.IfICmpLe b, c2)
      | 0xa5 => do
        let (b, c2) ← readBranch16 data c1 pos
        pure (.IfACmpEq b, c2)
      | 0xa6 => do
        let (b, c2) ← readBranch16 data c1 pos
        pure (.IfACmpNe b, c2)
      | 0xa7 => do
        let (b, c2) ← readBranch16 data c1 pos
        pure (.Goto b, c2)
      | 0xa8 => do
        let (b, c2) ← readBranch16 data c1 pos
        pure (.JSr b, c2)
      | 0xa9 => do
        let (v, c2) ← readIndexW wide data c1
        pure (.Ret v, c2)
      | 0xaa => do
        let (_, c2) ← readBytes DecompilerError.EndOfCode (switchPad c1) data c1
        let (d, c3) ← readU32 DecompilerError.EndOfCode data c2
        let (low, c4) ← readU32 DecompilerError.EndOfCode data c3
        let (high, c5) ← readU32 DecompilerError.EndOfCode data c4
        let (offsets, c6) ← readOffsets (if low ≤ high then high - low + 1 else 0) data c5 pos
        pure (.TableSwitch (u32ofInt (pos + i32ofBits d)) low high offsets, c6)
      | 0xab => do
        let (_, c2) ← readBytes DecompilerError.EndOfCode (switchPad c1) data c1
        let (d, c3) ← readU32 DecompilerError.EndOfCode data c2
        let (count, c4) ← readU32 DecompilerError.EndOfCode data c3
        let (pairs, c5) ← readMatchPairs count data c4 pos
        pure (.LookupSwitch (u32ofInt (pos + i32ofBits d)) pairs, c5)
      | 0xac => .ok (.IReturn, c1)
      | 0xad => .ok (.LReturn, c1)
      | 0xae => .ok (.FReturn, c1)
      | 0xaf => .ok (.DReturn, c1)
      | 0xb0 => .ok (.AReturn, c1)
      | 0xb1 => .ok (.Return, c1)
      | 0xb2 => do
        let (v, c2) ← readU16 DecompilerError.EndOfCode data c1
        pure (.GetStatic v, c2)
      | 0xb3 => do
        let (v, c2) ← readU16 DecompilerError.EndOfCode data c1
        pure (.PutStatic v, c2)
      | 0xb4 => do
        let (v, c2) ← readU16 DecompilerError.EndOfCode data c1
        pure (.GetField v, c2)
      | 0xb5 => do
        let (v, c2) ← readU16 DecompilerError.EndOfCode data c1
        pure (.PutField v, c2)
      | 0xb6 => do
        let (v, c2) ← readU16 DecompilerError.EndOfCode data c1
        pure (.InvokeVirtual v, c2)
      | 0xb7 => do
        let (v, c2) ← readU16 DecompilerError.EndOfCode data c1
        pure (.InvokeSpecial v, c2)
      | 0xb8 => do
        let (v, c2) ← readU16 DecompilerError.EndOfCode data c1
        pure (.InvokeStatic v, c2)
      | 0xb9 => do
        let (idx, c2) ← readU16 DecompilerError.EndOfCode data c1
        let (_, c3) ← readU16 DecompilerError.EndOfCode data c2
        pure (.InvokeInterface idx, c3)
      | 0xba => do
        let (idx, c2) ← readU16 DecompilerError.EndOfCode data c1
        let (_, c3) ← readU16 DecompilerError.EndOfCode data c2
        pure (.InvokeDynamic idx, c3)
      | 0xbb => do
        let (v, c2) ← readU16 DecompilerError.EndOfCode data c1
        pure (.New v, c2)
      | 0xbc => do
        let (type_id, c2) ← readU8 DecompilerError.EndOfCode data c1
        match type_id with
        | 4 => pure (.NewArray .Boolean, c2)
        | 5 => pure (.NewArray .Char, c2)
        | 6 => pure (.NewArray .Float, c2)
        | 7 => pure (.NewArray .Double, c2)
        | 8 => pure (.NewArray .Byte, c2)
        | 9 => pure (.NewArray .Short, c2)
        | 10 => pure (.NewArray .Int, c2)
        | 11 => pure (.NewArray .Long, c2)
        | _ => .error (.UnknownArrayType type_id)
      | 0xbd => do
        let (v, c2) ← readU16 DecompilerError.EndOfCode data c1
        pure (.ANewArray v, c2)
      | 0xbe => .ok (.ArrayLength, c1)
      | 0xbf => .ok (.AThrow, c1)
      | 0xc0 => do
        let (v, c2) ← readU16 DecompilerError.EndOfCode data c1
        pure (.CheckCast v, c2)
      | 0xc1 => do
        let (v, c2) ← readU16 DecompilerError.EndOfCode data c1
        pure (.InstanceOf v, c2)
      | 0xc2 => .ok (.MonitorEnter, c1)
      | 0xc3 => .ok (.MonitorExit, c1)
      | 0xc4 => read_instruction fuel data c1 pos true
      | 0xc5 => do
        let (idx, c2) ← readU16 DecompilerError.EndOfCode data c1
        let (dim, c3) ← readU8 DecompilerError.EndOfCode data c2
        pure (.MultiANewArray idx dim, c3)
      | 0xc6 => do
        let (b, c2) ← readBranch16 data c1 pos
        pure (.IfNull b, c2)
      | 0xc7 => do
        let (b, c2) ← readBranch16 data c1 pos
        pure (.IfNonNull b, c2)
      | 0xc8 => do
        let (d, c2) ← readU32 DecompilerError.EndOfCode data c1
        pure (.Goto (u16ofInt (pos + i32ofBits d)), c2)
      | 0xc9 => do
        let (d, c2) ← readU32 DecompilerError.EndOfCode data c1
        pure (.JSr (u16ofInt (pos + i32ofBits d)), c2)
      | _ => .error (.UnknownInstr code)

/-- The `loop` of `disassemble`: push `(pos, instr)` and stop once the
cursor is exactly at the end.  `fuel` bounds the iteration count (each
successful read consumes at least the opcode byte, so `data.length + 1`
iterations are never reached). -/
def disassembleLoop : Nat → List Nat → Nat → Except DecompilerError (List (Nat × Instruction))
  | 0, _, _ => .error .EndOfCode
  | f+1, data, posn =>
    match read_instruction (data.length - posn + 1) data posn (i32ofNat posn) false with
    | .error er => .error er
    | .ok (instr, posn2) =>
      if posn2 = data.length then .ok [(posn, instr)]
      else
        match disassembleLoop f data posn2 with
        | .error er => .error er
        | .ok rest => .ok ((posn, instr) :: rest)

/-- `disassemble`. -/
def disassemble (codes_vec : List Nat) : Except DecompilerError (List (Nat × Instruction)) :=
  disassembleLoop (codes_vec.length + 1) codes_vec 0

/-! ## Control-flow-graph builder (src/lib.rs) -/

structure Block where
  instructions : List (Nat × Instruction)
  branches : List Nat

/-- `get_index_for_pos`: first index whose pc equals `pos`. -/
def get_index_for_pos (instructions : List (Nat × Instruction)) (pos : Nat) : Option Nat :=
  instructions.findIdx? (fun p => p.1 == pos)

/-- The twelve conditional-branch patterns matched by
`gen_control_flow_graph` (both in the split-point collection and in the
successor computation).  `IfACmpEq`/`IfACmpNe`/`IfNull`/`IfNonNull` are
NOT among them in the source. -/
def condBranch : Instruction → Option Nat
  | .IfNe b => some b
  | .IfEq b => some b
  | .IfLe b => some b
  | .IfGe b => some b
  | .IfGt b => some b
  | .IfLt b => some b
  | .IfICmpEq b => some b
  | .IfICmpNe b => some b
  | .IfICmpGt b => some b
  | .IfICmpGe b => some b
  | .IfICmpLt b => some b
  | .IfICmpLe b => some b
  | _ => none

/-- The `Goto` pattern of both `gen_control_flow_graph` matches (the arm
between the conditionals and the catch-all). -/
def gotoBranch : Instruction → Option Nat
  | .Goto branch => some branch
  | _ => none

/-- The `*return` patterns of the successor computation. -/
def isReturnInstr : Instruction → Bool
  | .Return => true
  | .AReturn => true
  | .IReturn => true
  | .LReturn => true
  | .DReturn => true
  | .FReturn => true
  | _ => false

/-- The first loop of `gen_control_flow_graph`: for each conditional push
the branch-target index and the fall-through index `i+1`; for `Goto` push
the target index.  A target that is no instruction start makes the source
unwrap a `None` (modelled as `none`). -/
def collectJumpIndices (full : List (Nat × Instruction)) :
    List (Nat × Instruction) → Nat → Option (List Nat)
  | [], _ => some []
  | (_, instr) :: rest, i =>
    match condBranch instr with
    | some b =>
      match get_index_for_pos full b with
      | none => none
      | some tp =>
        match collectJumpIndices full rest (i + 1) with
        | none => none
        | some tl => some (tp :: (i + 1) :: tl)
    | none =>
      match gotoBranch instr with
      | some b =>
        match get_index_for_pos full b with
        | none => none
        | some jp =>
          match collectJumpIndices full rest (i + 1) with
          | none => none
          | some tl => some (jp :: tl)
      | none => collectJumpIndices full rest (i + 1)

/-- Removal of consecutive duplicates (`Vec::dedup` after sorting). -/
def dedupAdj : List Nat → List Nat
  | [] => []
  | [a] => [a]
  | a :: b :: rest => if a = b then dedupAdj (b :: rest) else a :: dedupAdj (b :: rest)

/-- `split_indices.sort(); split_indices.dedup();`. -/
def sortDedup (l : List Nat) : List Nat := dedupAdj (l.insertionSort (· ≤ ·))

/-- The `for i in 0..split_indices.len()` loop of `split_at_multiple`:
split off the segment up to the next index (relative to the previous one,
held in `prev`); the last iteration also pushes the remainder.  An
out-of-range `split_at` aborts (`none`).  An empty index list yields an
empty output, exactly like the source's zero-iteration loop. -/
def splitLoop {α : Type} : List α → Nat → List Nat → Option (List (List α))
  | _, _, [] => some []
  | v, prev, [i] =>
    if i - prev ≤ v.length then some [v.take (i - prev), v.drop (i - prev)] else none
  | v, prev, i :: j :: rest =>
    if i - prev ≤ v.length then
      match splitLoop (v.drop (i - prev)) i (j :: rest) with
      | none => none
      | some out => some (v.take (i - prev) :: out)
    else none

/-- `split_at_multiple`: sort + dedup, drop a leading `0`, then the
source's final-index handling: when the last index equals `vec.len()` it
calls `split_indices.remove(vec.len() - 1)` — removing at POSITION
`vec.len() - 1`, which aborts unless the index list is long enough
(`none` models the abort, as does the `last().unwrap()` on an emptied
list and the underflow of `vec.len() - 1` on an empty vector). -/
def split_at_multiple {α : Type} (vec : List α) (split_indices : List Nat) :
    Option (List (List α)) :=
  match sortDedup split_indices with
  | [] => some [vec]
  | s0 :: stail =>
    let s1 := if s0 = 0 then stail else s0 :: stail
    match s1.getLast? with
    | none => none
    | some last =>
      if last = vec.length then
        if vec.length = 0 then none
        else if vec.length - 1 < s1.length then splitLoop vec 0 (s1.eraseIdx (vec.length - 1))
        else none
      else splitLoop vec 0 s1

/-- Building the `HashMap` of raw blocks: each keyed by `el[0].0` (an
empty segment would make the source abort on the index). -/
def mkRawBlock (el : List (Nat × Instruction)) : Option (Nat × Block) :=
  match el.head? with
  | none => none
  | some h => some (h.1, ⟨el, []⟩)

/-- The `store jumps` loop body: find the block's last instruction, the
next instruction after it in the whole list
(`skip_while(|el| el.0 <= last_pos).next()`), and fill in the successor
list; `next.unwrap()` on `None` aborts (`none`). -/
def storeJumps (instructions : List (Nat × Instruction)) (kb : Nat × Block) :
    Option (Nat × Block) :=
  match kb.2.instructions.getLast? with
  | none => none
  | some lastp =>
    let next := (instructions.dropWhile (fun el => el.1 ≤ lastp.1)).head?
    match condBranch lastp.2 with
    | some b =>
      match next with
      | none => none
      | some n => some (kb.1, ⟨kb.2.instructions, [b, n.1]⟩)
    | none =>
      match gotoBranch lastp.2 with
      | some b => some (kb.1, ⟨kb.2.instructions, [b]⟩)
      | none =>
        if isReturnInstr lastp.2 then some (kb.1, ⟨kb.2.instructions, []⟩)
        else
          match next with
          | none => none
          | some n => some (kb.1, ⟨kb.2.instructions, [n.1]⟩)

/-- `gen_control_flow_graph`. -/
def gen_control_flow_graph (instructions : List (Nat × Instruction)) :
    Option (List (Nat × Block)) :=
  match collectJumpIndices instructions instructions 0 with
  | none => none
  | some ji =>
    match split_at_multiple instructions ji with
    | none => none
    | some raw_blocks =>
      match raw_blocks.mapM mkRawBlock with
      | none => none
      | some blocks =>
        (blocks.foldl (fun m kb => hmInsert m kb.1 kb.2) []).mapM (storeJumps instructions)

/-- Big-endian assembly of four bytes (the value `read_u32` produces). -/
def beU32v (b0 b1 b2 b3 : Nat) : Nat := ((b0 * 256 + b1) * 256 + b2) * 256 + b3

/-- Proof-side characterization of the segments `split_at_multiple`
produces: the pieces of `v` between consecutive boundary positions. -/
def segsA {α : Type} (v : List α) : Nat → List Nat → List (List α)
  | _, [] => []
  | prev, b :: rest => (v.drop prev).take (b - prev) :: segsA v b rest

/-- The split indices that survive `split_at_multiple`'s preprocessing:
strictly between 0 and the vector length. -/
def interiorP (len : Nat) (x : Nat) : Bool := decide (0 < x) && decide (x < len)

/-- The loop invariant for C8: all stored keys are below the running
index, and a stored `Long`/`Double` at `k` has a free slot at `k + 1`
which the loop has already skipped. -/
def PoolInv (pool : List (Nat × ConstantPoolInfo)) (i : Nat) : Prop :=
  ∀ k e, hmGet pool k = some e →
    k < i ∧ (isLongOrDouble e = true → hmGet pool (k + 1) = none ∧ k + 2 ≤ i)

-- THEOREMS BELOW ------------------------------------------------------------

/-- On a leading `'['` the source's field-type parser never consumes input
before recursing, so no amount of fuel lets it return. -/
theorem parse_field_type_bracket (f : Nat) (l : List Char) :
    parse_field_type f ('[' :: l) = none := by
  induction f with
  | zero => rfl
  | succ n ih => simp [parse_field_type, ih]

/-! ## Claim C10 -/

/-- C10: `disassemble` on an empty code array reads a first opcode before
any position check, so it returns the `EndOfCode` error (never an empty
instruction list). -/
theorem C10_disassemble_empty : disassemble [] = .error .EndOfCode := rfl

/-! ## Claim C5 -/

/-- C5: an `ifeq` at pc 5 with operand bytes `0x00 0x0A` decodes with
`branch = 15`, and with operand bytes `0xFF 0xFB` (offset −5,
sign-extended) decodes with `branch = 0`. -/
theorem C5_ifeq_sign_extension :
    disassemble [0, 0, 0, 0, 0, 0x99, 0x00, 0x0A]
      = .ok [(0, .Nop), (1, .Nop), (2, .Nop), (3, .Nop), (4, .Nop), (5, .IfEq 15)] ∧
    disassemble [0, 0, 0, 0, 0, 0x99, 0xFF, 0xFB]
      = .ok [(0, .Nop), (1, .Nop), (2, .Nop), (3, .Nop), (4, .Nop), (5, .IfEq 0)] :=
  ⟨rfl, rfl⟩

/-! ## Claim C6 -/

/-- C6: switch padding realigns the cursor to a multiple of 4 from the
start of the code array — a `tableswitch` at pc 0 skips three bytes, at
pc 3 none, at pc 5 two (the `switchPad` equations, evaluated at the
position just after the opcode byte); and the decoded default and case
offsets are the absolute pcs `opcode pc + signed 32-bit offset` (the third
program decodes the case offset −3 at pc 3 to absolute pc 0). -/
theorem C6_switch_alignment :
    switchPad 1 = 3 ∧ switchPad 4 = 0 ∧ switchPad 6 = 2 ∧
    disassemble ([0xaa, 9, 9, 9] ++ [0, 0, 0, 20] ++ [0, 0, 0, 0]
        ++ [0, 0, 0, 0] ++ [0, 0, 0, 24])
      = .ok [(0, .TableSwitch 20 0 0 [24])] ∧
    disassemble ([0, 0, 0, 0xaa] ++ [0, 0, 0, 20] ++ [0, 0, 0, 0]
        ++ [0, 0, 0, 0] ++ [0xFF, 0xFF, 0xFF, 0xFD])
      = .ok [(0, .Nop), (1, .Nop), (2, .Nop), (3, .TableSwitch 23 0 0 [0])] ∧
    disassemble ([0, 0, 0, 0, 0, 0xaa, 9, 9] ++ [0, 0, 0, 20] ++ [0, 0, 0, 1]
        ++ [0, 0, 0, 2] ++ [0, 0, 0, 24] ++ [0, 0, 0, 32])
      = .ok [(0, .Nop), (1, .Nop), (2, .Nop), (3, .Nop), (4, .Nop),
          (5, .TableSwitch 25 1 2 [29, 37])] :=
  ⟨rfl, rfl, rfl, rfl, rfl, rfl⟩

/-! ## Claim C2 -/

/-- C2 (code bug): the source's continuation-byte checks negate the byte
instead of the comparison (`!b2 & mask == value`), so bytes that fail the
`10xxxxxx` mask check are accepted: `[0xC2, 0x00]` (continuation byte
`0x00`, top bits `00`) decodes to `U+0080` instead of erroring, and the
six-byte form with second byte `0x00` (breaking `0xED 0b1010xxxx`)
decodes to `U+10000`. -/
theorem C2_mutf8_mask_codebug :
    mutf8_to_string [0xC2, 0x00] = .ok [0x80] ∧
    mutf8_to_string [0xED, 0x00, 0x80, 0xED, 0xB0, 0x80] = .ok [0x10000] :=
  ⟨rfl, rfl⟩

/-! ## Claim C4 -/

/-- C4 (code bug): for the decodable one-instruction program `ifeq 0`
(bytes `99 00 00`) the builder returns an EMPTY block map — the
fall-through split index 1 equals the vector length and
`split_at_multiple`'s final-index handling removes the whole index list,
so its loop runs zero times — violating the coverage invariant (the union
of the block instruction lists is empty, not the original list). -/
theorem C4_cfg_coverage_codebug :
    disassemble [0x99, 0x00, 0x00] = .ok [(0, .IfEq 0)] ∧
    gen_control_flow_graph [(0, .IfEq 0)] = some [] ∧
    (([] : List (Nat × Block)).map (fun kb => kb.2.instructions)).flatten
      ≠ [(0, Instruction.IfEq 0)] :=
  ⟨rfl, rfl, by simp⟩

/-! ## Claim C7 -/

/-- C7 (code bug): `parse_method` behaves as specified on `"()V"`,
`"(I)"` and `"(X)V"`, but on `"(I[Ljava/lang/String;)J"` the field-type
parser hits `'['` and recurses without consuming it, so no amount of fuel
makes it return (the source recurses forever instead of producing
`Array(Reference("java/lang/String"))`). -/
theorem C7_descriptor_codebug :
    parse_method "()V".toList = some (.ok ([], .Void)) ∧
    parse_method "(I)".toList = some (.error .EOF) ∧
    parse_method "(X)V".toList = some (.error (.Expect "field type" 'X')) ∧
    ∀ fuel : Nat, parse_method_fuel fuel "(I[Ljava/lang/String;)J".toList = none := by
  refine ⟨rfl, rfl, rfl, fun fuel => ?_⟩
  match fuel with
  | 0 => rfl
  | 1 => rfl
  | n+2 =>
    show parse_method_fuel (n+2) ('(' :: 'I' :: '[' :: "Ljava/lang/String;)J".toList) = none
    simp [parse_method_fuel, parseParams, parse_field_type, parse_field_type_bracket]


/-! ## Claim C1 -/

/-- C1 counterexample: a `goto_w` at pc 0 with 32-bit offset
`0x00010005 = 65541` is decoded as `Goto 5`: the absolute target 65541 is
NOT recorded — there is no u32-wide branch field, the sum is truncated
`as u16`. -/
theorem C1_gotow_counterexample :
    disassemble [0xc8, 0x00, 0x01, 0x00, 0x05] = .ok [(0, .Goto 5)] ∧ (5 : Nat) ≠ 65541 :=
  ⟨rfl, by decide⟩

/-- C1 amended: `goto_w` (0xC8) and `jsr_w` (0xC9) read a signed 32-bit
offset `d` and record the absolute target `pos + d` TRUNCATED to `u16`
(the `Goto`/`JSr` branch field is 16 bits wide, exactly as for the 2-byte
forms): the recorded branch is below 2^16 and congruent to `pos + d`
modulo 2^16. -/
theorem C1_gotow_truncation_amended (b1 b2 b3 b4 : Nat) (post : List Nat) (pos : Int)
    (wide : Bool) (fuel : Nat) :
    read_instruction (fuel + 1) (0xc8 :: b1 :: b2 :: b3 :: b4 :: post) 0 pos wide
      = .ok (.Goto (u16ofInt (pos + i32ofBits (((b1 * 256 + b2) * 256 + b3) * 256 + b4))), 5) ∧
    read_instruction (fuel + 1) (0xc9 :: b1 :: b2 :: b3 :: b4 :: post) 0 pos wide
      = .ok (.JSr (u16ofInt (pos + i32ofBits (((b1 * 256 + b2) * 256 + b3) * 256 + b4))), 5) ∧
    u16ofInt (pos + i32ofBits (((b1 * 256 + b2) * 256 + b3) * 256 + b4)) < 65536 ∧
    (u16ofInt (pos + i32ofBits (((b1 * 256 + b2) * 256 + b3) * 256 + b4)) : Int)
      = (pos + i32ofBits (((b1 * 256 + b2) * 256 + b3) * 256 + b4)) % 65536 := by
  refine ⟨?_, ?_, ?_, ?_⟩
  · simp [read_instruction, readU8, readU32, List.getD]
  · simp [read_instruction, readU8, readU32, List.getD]
  · have h1 := Int.emod_nonneg (pos + i32ofBits (((b1 * 256 + b2) * 256 + b3) * 256 + b4))
      (by norm_num : (65536 : Int) ≠ 0)
    have h2 := Int.emod_lt_of_pos (pos + i32ofBits (((b1 * 256 + b2) * 256 + b3) * 256 + b4))
      (by norm_num : (0 : Int) < 65536)
    unfold u16ofInt
    omega
  · have h1 := Int.emod_nonneg (pos + i32ofBits (((b1 * 256 + b2) * 256 + b3) * 256 + b4))
      (by norm_num : (65536 : Int) ≠ 0)
    unfold u16ofInt
    omega

/-! ## Claim C9 -/

/-- C9: a constant-pool `Long` whose eight payload bytes are read as the
big-endian words `high` then `low` decodes to the signed 64-bit value
whose bit pattern is `high * 2^32 + low`: the value is congruent to that
pattern modulo 2^64, the high word occupies the most-significant 32 bits
and the low word the least-significant 32 bits of the pattern, the value
lies in the signed 64-bit range, and a non-negative decoded value equals
`(high << 32) | low` exactly. -/
theorem C9_long_byte_order (b0 b1 b2 b3 b4 b5 b6 b7 : Nat) (post : List Nat)
    (h0 : b0 < 256) (h1 : b1 < 256) (h2 : b2 < 256) (h3 : b3 < 256)
    (h4 : b4 < 256) (h5 : b5 < 256) (h6 : b6 < 256) (h7 : b7 < 256) :
    read_cp_entry (5 :: b0 :: b1 :: b2 :: b3 :: b4 :: b5 :: b6 :: b7 :: post) 0
      = .ok (5, .Long (i64ofBits (beU32v b0 b1 b2 b3 * 4294967296 + beU32v b4 b5 b6 b7)), 9) ∧
    (i64ofBits (beU32v b0 b1 b2 b3 * 4294967296 + beU32v b4 b5 b6 b7)) % 18446744073709551616
      = beU32v b0 b1 b2 b3 * 4294967296 + beU32v b4 b5 b6 b7 ∧
    ((i64ofBits (beU32v b0 b1 b2 b3 * 4294967296 + beU32v b4 b5 b6 b7)) % 18446744073709551616).toNat / 4294967296
      = beU32v b0 b1 b2 b3 ∧
    ((i64ofBits (beU32v b0 b1 b2 b3 * 4294967296 + beU32v b4 b5 b6 b7)) % 18446744073709551616).toNat % 4294967296
      = beU32v b4 b5 b6 b7 ∧
    -(9223372036854775808 : Int) ≤ i64ofBits (beU32v b0 b1 b2 b3 * 4294967296 + beU32v b4 b5 b6 b7) ∧
    i64ofBits (beU32v b0 b1 b2 b3 * 4294967296 + beU32v b4 b5 b6 b7) < 9223372036854775808 ∧
    (0 ≤ i64ofBits (beU32v b0 b1 b2 b3 * 4294967296 + beU32v b4 b5 b6 b7) →
      i64ofBits (beU32v b0 b1 b2 b3 * 4294967296 + beU32v b4 b5 b6 b7)
        = beU32v b0 b1 b2 b3 * 4294967296 + beU32v b4 b5 b6 b7) := by
  refine ⟨?_, ?_⟩
  · simp [read_cp_entry, readU8, readU32, List.getD, beU32v]
  · unfold beU32v i64ofBits
    split <;> constructor <;> omega

/-- C9 witness: the payload bytes 1..8 decode to the value whose high
word is 0x01020304 and low word 0x05060708. -/
theorem C9_long_byte_order_witness :
    read_cp_entry [5, 1, 2, 3, 4, 5, 6, 7, 8] 0
      = .ok (5, .Long (i64ofBits (beU32v 1 2 3 4 * 4294967296 + beU32v 5 6 7 8)), 9) :=
  (C9_long_byte_order 1 2 3 4 5 6 7 8 [] (by decide) (by decide) (by decide) (by decide)
    (by decide) (by decide) (by decide) (by decide)).1

/-! ## Claim C8 -/

theorem hmGet_append_single {b : Type} (m : List (Nat × b)) (k j : Nat) (v : b) :
    hmGet (m ++ [(k, v)]) j = (hmGet m j).or (if k = j then some v else none) := by
  unfold hmGet
  rw [List.find?_append]
  cases hf : List.find? (fun p => p.1 == j) m with
  | none =>
    by_cases h : k = j <;> simp [hf, List.find?_cons, List.find?_nil, h]
  | some p => simp [hf]

theorem hmGet_isSome_of_mem {b : Type} (m : List (Nat × b)) (q : Nat × b) (h : q ∈ m) :
    ∃ w, hmGet m q.1 = some w := by
  induction m with
  | nil => cases h
  | cons p rest ih =>
    by_cases hp : p.1 = q.1
    · exact ⟨p.2, by simp [hmGet, List.find?_cons, hp]⟩
    · have hq : q ∈ rest := by
        rcases List.mem_cons.mp h with h1 | h1
        · exact absurd (congrArg Prod.fst h1.symm) hp
        · exact h1
      obtain ⟨w, hw⟩ := ih hq
      refine ⟨w, ?_⟩
      simp only [hmGet, List.find?_cons] at hw ⊢
      have hb : (p.1 == q.1) = false := by simp [hp]
      rw [hb]
      exact hw

theorem hmInsert_fresh {b : Type} (m : List (Nat × b)) (k : Nat) (v : b)
    (h : ∀ q ∈ m, q.1 ≠ k) : hmInsert m k v = m ++ [(k, v)] := by
  unfold hmInsert
  rw [if_neg]
  simp only [List.any_eq_true, beq_iff_eq, not_exists, not_and]
  exact h

theorem hmGet_none_of_ge (pool : List (Nat × ConstantPoolInfo)) (i j : Nat)
    (hInv : PoolInv pool i) (hj : i ≤ j) : hmGet pool j = none := by
  cases h : hmGet pool j with
  | none => rfl
  | some w => exact absurd (hInv j w h).1 (by omega)

theorem PoolInv_insert (pool : List (Nat × ConstantPoolInfo)) (i : Nat)
    (e : ConstantPoolInfo) (s : Nat) (hs : 1 ≤ s)
    (hbig : isLongOrDouble e = true → 2 ≤ s)
    (hInv : PoolInv pool i) : PoolInv (hmInsert pool i e) (i + s) := by
  have hfresh : ∀ q ∈ pool, q.1 ≠ i := by
    intro q hq
    obtain ⟨w, hw⟩ := hmGet_isSome_of_mem pool q hq
    exact fun hk => absurd (hInv q.1 w hw).1 (by omega)
  rw [hmInsert_fresh pool i e hfresh]
  intro k e2 hk
  rw [hmGet_append_single] at hk
  cases hg : hmGet pool k with
  | some w =>
    rw [hg] at hk
    simp only [Option.or] at hk
    have hwe : e2 = w := by injection hk with hh; exact hh.symm
    subst hwe
    obtain ⟨hki, hbig2⟩ := hInv k e2 hg
    refine ⟨by omega, fun hb => ?_⟩
    obtain ⟨hn, hk2⟩ := hbig2 hb
    refine ⟨?_, by omega⟩
    rw [hmGet_append_single, hn]
    simp only [Option.or]
    rw [if_neg (by omega)]
  | none =>
    rw [hg] at hk
    simp only [Option.or] at hk
    by_cases hik : i = k
    · rw [if_pos hik] at hk
      have hee : e2 = e := by injection hk with hh; exact hh.symm
      subst hee
      subst hik
      refine ⟨by omega, fun hb => ?_⟩
      have h2 : 2 ≤ s := hbig hb
      refine ⟨?_, by omega⟩
      rw [hmGet_append_single, hmGet_none_of_ge pool i (i + 1) hInv (by omega)]
      simp only [Option.or]
      rw [if_neg (by omega)]
    · rw [if_neg hik] at hk
      cases hk

/-- Only the tags 5 and 6 can produce `Long`/`Double` entries. -/
theorem read_cp_entry_big (data : List Nat) (cur t : Nat) (e : ConstantPoolInfo) (c2 : Nat)
    (h : read_cp_entry data cur = .ok (t, e, c2)) (hb : isLongOrDouble e = true) :
    t = 5 ∨ t = 6 := by
  unfold read_cp_entry at h
  repeat' split at h
  all_goals
    (cases h <;>
      (first | exact Or.inl rfl | exact Or.inr rfl | exact Bool.noConfusion hb))

theorem read_cp_loop_inv (data : List Nat) (count : Nat) :
    ∀ fuel cur i pool res c2,
      PoolInv pool i →
      read_cp_loop data count fuel cur i pool = .ok (res, c2) →
      ∀ k e, hmGet res k = some e → isLongOrDouble e = true → hmGet res (k + 1) = none := by
  intro fuel
  induction fuel with
  | zero =>
    intro cur i pool res c2 hInv h
    simp only [read_cp_loop] at h
    by_cases hi : i < count
    · rw [if_pos hi] at h
      cases h
    · rw [if_neg hi] at h
      cases h
      exact fun k e hk hb => ((hInv k e hk).2 hb).1
  | succ f ih =>
    intro cur i pool res c2 hInv h
    simp only [read_cp_loop] at h
    by_cases hi : i < count
    · rw [if_pos hi] at h
      cases hre : read_cp_entry data cur with
      | error er => rw [hre] at h; cases h
      | ok tec =>
        obtain ⟨t, e, c3⟩ := tec
        rw [hre] at h
        have h2 : (if t = 5 ∨ t = 6 then read_cp_loop data count f c3 (i + 2) (hmInsert pool i e)
            else read_cp_loop data count f c3 (i + 1) (hmInsert pool i e)) = Except.ok (res, c2) := h
        by_cases ht : t = 5 ∨ t = 6
        · rw [if_pos ht] at h2
          exact ih c3 (i + 2) (hmInsert pool i e) res c2
            (PoolInv_insert pool i e 2 (by omega) (fun _ => by omega) hInv) h2
        · rw [if_neg ht] at h2
          exact ih c3 (i + 1) (hmInsert pool i e) res c2
            (PoolInv_insert pool i e 1 (by omega)
              (fun hb => absurd (read_cp_entry_big data cur t e c3 hre hb) ht) hInv) h2
    · rw [if_neg hi] at h
      cases h
      exact fun k e hk hb => ((hInv k e hk).2 hb).1

/-- C8: when `read_constant_pool` succeeds and the resulting pool stores
a `Long` or `Double` at index `k`, nothing is stored at `k + 1` (loading
advanced the index by 2), and `get_entry` at `k + 1` fails with
`InvalidCPEntry`. -/
theorem C8_slot_reservation (data : List Nat) (cur : Nat)
    (pool : List (Nat × ConstantPoolInfo)) (c2 : Nat) (k : Nat) (e : ConstantPoolInfo)
    (h : read_constant_pool data cur = .ok (pool, c2))
    (hk : hmGet pool k = some e) (hbig : isLongOrDouble e = true) :
    hmGet pool (k + 1) = none ∧ get_entry pool (k + 1) = .error .InvalidCPEntry := by
  unfold read_constant_pool at h
  cases hr : readU16 ClassFileError.EndOfFile data cur with
  | error er => rw [hr] at h; cases h
  | ok cc =>
    obtain ⟨count, c1⟩ := cc
    rw [hr] at h
    have hnone : hmGet pool (k + 1) = none :=
      read_cp_loop_inv data count count c1 1 [] pool c2
        (fun k2 e2 hk2 => by simp [hmGet] at hk2) h k e hk hbig
    exact ⟨hnone, by unfold get_entry; rw [hnone]⟩

/-- C8 witness: a pool stream with count 4, a `Long` stored at index 1
and an `Integer` at index 3; index 2 is reserved and unreadable. -/
theorem C8_slot_reservation_witness :
    hmGet [(1, ConstantPoolInfo.Long 72623859790382856), (3, ConstantPoolInfo.Integer 42)] 2
      = none ∧
    get_entry [(1, ConstantPoolInfo.Long 72623859790382856), (3, ConstantPoolInfo.Integer 42)] 2
      = .error .InvalidCPEntry :=
  C8_slot_reservation [0, 4, 5, 1, 2, 3, 4, 5, 6, 7, 8, 3, 0, 0, 0, 42] 0
    [(1, ConstantPoolInfo.Long 72623859790382856), (3, ConstantPoolInfo.Integer 42)] 16
    1 (ConstantPoolInfo.Long 72623859790382856) rfl rfl rfl

/-! ## C3: ordered-list utilities -/

theorem dedupAdj_mem (a : Nat) : ∀ l : List Nat, a ∈ dedupAdj l ↔ a ∈ l := by
  intro l
  induction l with
  | nil => simp [dedupAdj]
  | cons x xs ih =>
    cases xs with
    | nil => simp [dedupAdj]
    | cons y ys =>
      by_cases hxy : x = y
      · subst hxy
        have hd : dedupAdj (x :: x :: ys) = dedupAdj (x :: ys) := by simp [dedupAdj]
        rw [hd, ih]
        simp only [List.mem_cons]
        tauto
      · simp only [dedupAdj, if_neg hxy, List.mem_cons]
        rw [ih]
        simp only [List.mem_cons]

theorem dedupAdj_cons_head (x : Nat) : ∀ xs : List Nat, ∃ tl, dedupAdj (x :: xs) = x :: tl := by
  intro xs
  induction xs generalizing x with
  | nil => exact ⟨[], rfl⟩
  | cons y ys ih =>
    by_cases hxy : x = y
    · subst hxy
      simpa [dedupAdj] using ih x
    · exact ⟨dedupAdj (y :: ys), by simp [dedupAdj, hxy]⟩

theorem dedupAdj_chain : ∀ l : List Nat, List.Chain' (· ≤ ·) l → List.Chain' (· < ·) (dedupAdj l) := by
  intro l
  induction l with
  | nil => simp [dedupAdj]
  | cons x xs ih =>
    cases xs with
    | nil => simp [dedupAdj]
    | cons y ys =>
      intro h
      rw [List.chain'_cons] at h
      by_cases hxy : x = y
      · subst hxy
        simpa [dedupAdj] using ih h.2
      · simp only [dedupAdj, if_neg hxy]
        obtain ⟨tl, htl⟩ := dedupAdj_cons_head y ys
        rw [htl]
        rw [htl] at ih
        exact List.chain'_cons.mpr ⟨lt_of_le_of_ne h.1 hxy, ih h.2⟩

theorem sortDedup_mem (a : Nat) (l : List Nat) : a ∈ sortDedup l ↔ a ∈ l := by
  unfold sortDedup
  rw [dedupAdj_mem]
  exact (List.perm_insertionSort (· ≤ ·) l).mem_iff

theorem sortDedup_pairwise (l : List Nat) : List.Pairwise (· < ·) (sortDedup l) := by
  have hs : List.Chain' (· ≤ ·) (l.insertionSort (· ≤ ·)) :=
    List.chain'_iff_pairwise.mpr (List.sorted_insertionSort (· ≤ ·) l)
  exact List.chain'_iff_pairwise.mp (dedupAdj_chain _ hs)

theorem pairwise_le_getLast (l : List Nat) (m : Nat) (hp : List.Pairwise (· < ·) l)
    (hm : l.getLast? = some m) : ∀ x ∈ l, x ≤ m := by
  induction l with
  | nil => simp at hm
  | cons a tl ih =>
    rw [List.pairwise_cons] at hp
    intro x hx
    cases htl : tl with
    | nil =>
      subst htl
      simp at hm hx
      omega
    | cons b bs =>
      have hm2 : tl.getLast? = some m := by
        rw [htl] at hm ⊢
        simpa [List.getLast?_cons_cons] using hm
      rcases List.mem_cons.mp hx with h1 | h1
      · subst h1
        have hb : m ∈ tl := List.mem_of_mem_getLast? hm2
        exact le_of_lt (hp.1 m hb)
      · exact ih hp.2 hm2 x h1

theorem strict_bounded_length : ∀ (l : List Nat) (a b : Nat),
    List.Pairwise (· < ·) l → (∀ x ∈ l, a ≤ x ∧ x < b) → l.length ≤ b - a := by
  intro l
  induction l with
  | nil => intro a b _ _; simp
  | cons x xs ih =>
    intro a b hp hb
    rw [List.pairwise_cons] at hp
    have hx := hb x (List.mem_cons_self x xs)
    have hxs : ∀ y ∈ xs, x + 1 ≤ y ∧ y < b := fun y hy =>
      ⟨hp.1 y hy, (hb y (List.mem_cons_of_mem x hy)).2⟩
    have := ih (x + 1) b hp.2 hxs
    simp only [List.length_cons]
    omega

theorem strict_full : ∀ (m : Nat) (a : Nat) (l : List Nat),
    List.Pairwise (· < ·) l → (∀ x ∈ l, a ≤ x ∧ x < a + m) → m ≤ l.length →
    l = List.range' a m := by
  intro m
  induction m with
  | zero =>
    intro a l _ hb hlen
    cases l with
    | nil => rfl
    | cons x xs => exact absurd (hb x (List.mem_cons_self x xs)) (by omega)
  | succ n ih =>
    intro a l hp hb hlen
    cases l with
    | nil => simp at hlen
    | cons x xs =>
      rw [List.pairwise_cons] at hp
      have hx := hb x (List.mem_cons_self x xs)
      have hxs : ∀ y ∈ xs, x + 1 ≤ y ∧ y < a + (n + 1) := fun y hy =>
        ⟨hp.1 y hy, (hb y (List.mem_cons_of_mem x hy)).2⟩
      have hlenxs : xs.length ≤ a + (n + 1) - (x + 1) := strict_bounded_length xs (x + 1) (a + (n + 1)) hp.2 hxs
      have hxa : x = a := by
        simp only [List.length_cons] at hlen
        omega
      subst hxa
      have hxs2 : ∀ y ∈ xs, x + 1 ≤ y ∧ y < (x + 1) + n := fun y hy => by
        have := hxs y hy
        omega
      have : xs = List.range' (x + 1) n := by
        apply ih (x + 1) xs hp.2 hxs2
        simp only [List.length_cons] at hlen
        omega
      rw [List.range'_succ, this]

theorem range'_eraseIdx_last (n : Nat) (hn : 1 ≤ n) :
    (List.range' 1 n).eraseIdx (n - 1) = List.range' 1 (n - 1) := by
  obtain ⟨k, rfl⟩ : ∃ k, n = k + 1 := ⟨n - 1, by omega⟩
  have hc := @List.range'_concat 1 1 k
  simp only [one_mul] at hc
  rw [hc]
  simp only [Nat.add_sub_cancel]
  rw [List.eraseIdx_append_of_length_le (by simp)]
  simp

theorem pairwise_le_getLastD (b : Nat) (rest : List Nat)
    (hp : List.Pairwise (· < ·) (b :: rest)) : b ≤ rest.getLastD b := by
  cases hr : rest with
  | nil => simp
  | cons c cs =>
    rw [List.pairwise_cons] at hp
    have hne : rest ≠ [] := by rw [hr]; simp
    obtain ⟨m, hm⟩ := Option.isSome_iff_exists.mp (List.getLast?_isSome.mpr hne)
    have hmem : m ∈ rest := List.mem_of_mem_getLast? hm
    rw [← hr, List.getLastD_eq_getLast?, hm]
    exact le_of_lt (hp.1 m (hr ▸ hmem))

theorem segsA_flatten {α : Type} (v : List α) : ∀ (bs : List Nat) (prev : Nat),
    List.Pairwise (· < ·) (prev :: bs) → (∀ b ∈ bs, b ≤ v.length) →
    (segsA v prev bs).flatten = (v.drop prev).take (bs.getLastD prev - prev) := by
  intro bs
  induction bs with
  | nil => intro prev _ _; simp [segsA]
  | cons b rest ih =>
    intro prev hp hb
    rw [List.pairwise_cons] at hp
    have hpb : prev < b := hp.1 b (List.mem_cons_self b rest)
    have hbr : b ≤ rest.getLastD b := pairwise_le_getLastD b rest hp.2
    simp only [segsA, List.flatten_cons, List.getLastD_cons]
    rw [ih b hp.2 (fun x hx => hb x (List.mem_cons_of_mem b hx))]
    have hdd : v.drop b = (v.drop prev).drop (b - prev) := by
      rw [List.drop_drop]
      congr 1
      omega
    rw [hdd, ← List.take_add]
    congr 1
    omega

theorem segsA_ne_nil {α : Type} (v : List α) : ∀ (bs : List Nat) (prev : Nat),
    List.Pairwise (· < ·) (prev :: bs) → (∀ b ∈ bs, b ≤ v.length) →
    ∀ c ∈ segsA v prev bs, c ≠ [] := by
  intro bs
  induction bs with
  | nil => intro prev _ _ c hc; cases hc
  | cons b rest ih =>
    intro prev hp hb c hc
    rw [List.pairwise_cons] at hp
    have hpb : prev < b := hp.1 b (List.mem_cons_self b rest)
    have hble : b ≤ v.length := hb b (List.mem_cons_self b rest)
    rcases List.mem_cons.mp hc with h1 | h1
    · subst h1
      intro hnil
      have := congrArg List.length hnil
      simp only [List.length_take, List.length_drop, List.length_nil] at this
      omega
    · exact ih b hp.2 (fun x hx => hb x (List.mem_cons_of_mem b hx)) c h1

theorem segsA_head {α : Type} (v : List α) : ∀ (bs : List Nat) (prev st : Nat),
    List.Pairwise (· < ·) (prev :: bs) → (∀ b ∈ bs, b ≤ v.length) → bs ≠ [] →
    st ∈ prev :: bs.dropLast → ∃ c ∈ segsA v prev bs, c.head? = v[st]? := by
  intro bs
  induction bs with
  | nil => intro prev st _ _ hne _; exact absurd rfl hne
  | cons b rest ih =>
    intro prev st hp hb _ hst
    rw [List.pairwise_cons] at hp
    have hpb : prev < b := hp.1 b (List.mem_cons_self b rest)
    cases hr : rest with
    | nil =>
      subst hr
      simp only [List.dropLast_single, List.mem_cons, List.not_mem_nil, or_false] at hst
      subst hst
      refine ⟨(v.drop st).take (b - st), List.mem_cons_self _ _, ?_⟩
      rw [List.head?_take, if_neg (by omega), List.head?_drop]
    | cons b2 rest2 =>
      subst hr
      rw [List.dropLast_cons₂, List.mem_cons] at hst
      rcases hst with h1 | h1
      · subst h1
        refine ⟨(v.drop st).take (b - st), List.mem_cons_self _ _, ?_⟩
        rw [List.head?_take, if_neg (by omega), List.head?_drop]
      · obtain ⟨c, hc, hch⟩ := ih b st hp.2
          (fun x hx => hb x (List.mem_cons_of_mem b hx)) (by simp) h1
        exact ⟨c, List.mem_cons_of_mem _ hc, hch⟩

theorem segsA_last {α : Type} (v : List α) : ∀ (bs : List Nat) (prev st : Nat),
    List.Pairwise (· < ·) (prev :: bs) → (∀ b ∈ bs, b ≤ v.length) →
    st ∈ bs.dropLast → ∃ c ∈ segsA v prev bs, c.getLast? = v[st - 1]? := by
  intro bs
  induction bs with
  | nil => intro prev st _ _ hst; cases hst
  | cons b rest ih =>
    intro prev st hp hb hst
    rw [List.pairwise_cons] at hp
    have hpb : prev < b := hp.1 b (List.mem_cons_self b rest)
    have hble : b ≤ v.length := hb b (List.mem_cons_self b rest)
    cases hr : rest with
    | nil =>
      subst hr
      simp at hst
    | cons b2 rest2 =>
      subst hr
      rw [List.dropLast_cons₂, List.mem_cons] at hst
      rcases hst with h1 | h1
      · subst h1
        refine ⟨(v.drop prev).take (st - prev), List.mem_cons_self _ _, ?_⟩
        rw [List.getLast?_take, if_neg (by omega)]
        have hidx : (v.drop prev)[st - prev - 1]? = v[st - 1]? := by
          rw [List.getElem?_drop]
          congr 1
          omega
        rw [hidx]
        have hlt : st - 1 < v.length := by omega
        have hsome : v[st - 1]? = some (v.get ⟨st - 1, hlt⟩) :=
          List.getElem?_eq_getElem hlt
        rw [hsome]
        rfl
      · obtain ⟨c, hc, hch⟩ := ih b st hp.2
          (fun x hx => hb x (List.mem_cons_of_mem b hx)) h1
        exact ⟨c, List.mem_cons_of_mem _ hc, hch⟩

theorem splitLoop_flatten {α : Type} : ∀ (s : List Nat) (v : List α) (prev : Nat)
    (out : List (List α)), s ≠ [] → splitLoop v prev s = some out → out.flatten = v := by
  intro s
  induction s with
  | nil => intro v prev out hne _; exact absurd rfl hne
  | cons i rest ih =>
    intro v prev out _ h
    cases rest with
    | nil =>
      simp only [splitLoop] at h
      by_cases hc : i - prev ≤ v.length
      · rw [if_pos hc] at h
        cases h
        simp
      · rw [if_neg hc] at h
        cases h
    | cons j rest2 =>
      simp only [splitLoop] at h
      by_cases hc : i - prev ≤ v.length
      · rw [if_pos hc] at h
        cases hs2 : splitLoop (v.drop (i - prev)) i (j :: rest2) with
        | none => rw [hs2] at h; cases h
        | some out2 =>
          rw [hs2] at h
          cases h
          have := ih (v.drop (i - prev)) i out2 (by simp) hs2
          simp [this]
      · rw [if_neg hc] at h
        cases h

theorem splitLoop_eq_segsA {α : Type} (v : List α) : ∀ (s : List Nat) (prev : Nat)
    (out : List (List α)), s ≠ [] → List.Pairwise (· < ·) (prev :: s) →
    splitLoop (v.drop prev) prev s = some out →
    out = segsA v prev (s ++ [v.length]) := by
  intro s
  induction s with
  | nil => intro prev out hne _ _; exact absurd rfl hne
  | cons i rest ih =>
    intro prev out _ hp h
    rw [List.pairwise_cons] at hp
    have hpi : prev < i := hp.1 i (List.mem_cons_self i rest)
    cases rest with
    | nil =>
      simp only [splitLoop] at h
      by_cases hc : i - prev ≤ (v.drop prev).length
      · rw [if_pos hc] at h
        cases h
        simp only [segsA, List.cons_append, List.nil_append]
        have hX : (v.drop prev).drop (i - prev) = v.drop i := by
          rw [List.drop_drop]
          congr 1
          omega
        have hY : (v.drop i).take (v.length - i) = v.drop i :=
          List.take_of_length_le (by simp)
        rw [hX, hY]
      · rw [if_neg hc] at h
        cases h
    | cons j rest2 =>
      simp only [splitLoop] at h
      by_cases hc : i - prev ≤ (v.drop prev).length
      · rw [if_pos hc] at h
        cases hs2 : splitLoop ((v.drop prev).drop (i - prev)) i (j :: rest2) with
        | none => rw [hs2] at h; cases h
        | some out2 =>
          rw [hs2] at h
          cases h
          have hX : (v.drop prev).drop (i - prev) = v.drop i := by
            rw [List.drop_drop]
            congr 1
            omega
          rw [hX] at hs2
          have hout2 := ih i out2 (by simp) hp.2 hs2
          rw [hout2]
          simp [segsA]
      · rw [if_neg hc] at h
        cases h

theorem splitLoop_eq_segsA0 {α : Type} (v : List α) (s : List Nat) (out : List (List α))
    (hne : s ≠ []) (hp : List.Pairwise (· < ·) (0 :: s))
    (h : splitLoop v 0 s = some out) : out = segsA v 0 (s ++ [v.length]) :=
  splitLoop_eq_segsA v s 0 out hne hp (by rw [List.drop_zero]; exact h)

theorem range'_filter_interior (len : Nat) (hlen : 1 ≤ len) :
    (List.range' 1 len).filter (interiorP len) = List.range' 1 (len - 1) := by
  obtain ⟨k, rfl⟩ : ∃ k, len = k + 1 := ⟨len - 1, by omega⟩
  have hc := @List.range'_concat 1 1 k
  simp only [one_mul] at hc
  rw [hc, List.filter_append]
  have h1 : (List.range' 1 k).filter (interiorP (k + 1)) = List.range' 1 k := by
    apply List.filter_eq_self.mpr
    intro x hx
    rw [List.mem_range'_1] at hx
    simp only [interiorP, Bool.and_eq_true, decide_eq_true_eq]
    omega
  have h2 : List.filter (interiorP (k + 1)) [1 + k] = [] := by
    simp [interiorP, List.filter_cons]
    omega
  rw [h1, h2]
  simp

theorem split_stage2 {α : Type} (vec : List α) (s1 : List Nat) (out : List (List α))
    (hp : List.Pairwise (· < ·) s1) (hpos : ∀ x ∈ s1, 0 < x)
    (hle1 : ∀ x ∈ s1, x ≤ vec.length) (hlen : vec.length ≠ 1)
    (h : (match s1.getLast? with
          | none => none
          | some last =>
            if last = vec.length then
              if vec.length = 0 then none
              else if vec.length - 1 < s1.length then
                splitLoop vec 0 (s1.eraseIdx (vec.length - 1))
              else none
            else splitLoop vec 0 s1) = some out) :
    out = segsA vec 0 (s1.filter (interiorP vec.length) ++ [vec.length]) := by
  cases hgl : s1.getLast? with
  | none => rw [hgl] at h; cases h
  | some last =>
    rw [hgl] at h
    have h2 : (if last = vec.length then
                if vec.length = 0 then none
                else if vec.length - 1 < s1.length then
                  splitLoop vec 0 (s1.eraseIdx (vec.length - 1))
                else none
              else splitLoop vec 0 s1) = some out := h
    have hne : s1 ≠ [] := fun hn => by rw [hn] at hgl; cases hgl
    have hlast : last ∈ s1 := List.mem_of_mem_getLast? hgl
    have hmax : ∀ x ∈ s1, x ≤ last := pairwise_le_getLast s1 last hp hgl
    by_cases hll : last = vec.length
    · rw [if_pos hll] at h2
      have hlen0 : vec.length ≠ 0 := by
        have := hpos last hlast
        omega
      rw [if_neg hlen0] at h2
      by_cases hcnt : vec.length - 1 < s1.length
      · rw [if_pos hcnt] at h2
        have hbound : ∀ x ∈ s1, 1 ≤ x ∧ x < 1 + vec.length := fun x hx =>
          ⟨hpos x hx, by have := hle1 x hx; omega⟩
        have hfull : s1 = List.range' 1 vec.length := by
          apply strict_full vec.length 1 s1 hp hbound
          have := strict_bounded_length s1 1 (1 + vec.length) hp hbound
          omega
        rw [hfull, range'_eraseIdx_last vec.length (by omega)] at h2
        have h2len : 2 ≤ vec.length := by omega
        have hout := splitLoop_eq_segsA0 vec (List.range' 1 (vec.length - 1)) out
          (by simp; omega)
          (by
            rw [List.pairwise_cons]
            refine ⟨fun x hx => ?_, List.pairwise_lt_range' 1 (vec.length - 1)⟩
            rw [List.mem_range'_1] at hx
            omega)
          h2
        rw [hout, hfull, range'_filter_interior vec.length (by omega)]
      · rw [if_neg hcnt] at h2
        cases h2
    · rw [if_neg hll] at h2
      have hlastlt : last < vec.length := lt_of_le_of_ne (hle1 last hlast) hll
      have hfil : s1.filter (interiorP vec.length) = s1 := by
        apply List.filter_eq_self.mpr
        intro x hx
        simp only [interiorP, Bool.and_eq_true, decide_eq_true_eq]
        exact ⟨hpos x hx, lt_of_le_of_lt (hmax x hx) hlastlt⟩
      rw [hfil]
      exact splitLoop_eq_segsA0 vec s1 out hne
        (List.pairwise_cons.mpr ⟨fun x hx => hpos x hx, hp⟩) h2

theorem split_at_multiple_eq {α : Type} (vec : List α) (si : List Nat) (out : List (List α))
    (hle : ∀ x ∈ si, x ≤ vec.length) (hlen : vec.length ≠ 1)
    (h : split_at_multiple vec si = some out) :
    out = segsA vec 0 ((sortDedup si).filter (interiorP vec.length) ++ [vec.length]) := by
  unfold split_at_multiple at h
  cases hs : sortDedup si with
  | nil =>
    rw [hs] at h
    cases h
    simp [segsA, List.take_of_length_le]
  | cons s0 stail =>
    rw [hs] at h
    have hsp : List.Pairwise (· < ·) (s0 :: stail) := hs ▸ sortDedup_pairwise si
    have hsle : ∀ x ∈ s0 :: stail, x ≤ vec.length := fun x hx =>
      hle x ((sortDedup_mem x si).mp (hs ▸ hx))
    rw [List.pairwise_cons] at hsp
    by_cases h0 : s0 = 0
    · subst h0
      have h2 : (match stail.getLast? with
            | none => none
            | some last =>
              if last = vec.length then
                if vec.length = 0 then none
                else if vec.length - 1 < stail.length then
                  splitLoop vec 0 (stail.eraseIdx (vec.length - 1))
                else none
              else splitLoop vec 0 stail) = some out := h
      have hout := split_stage2 vec stail out hsp.2
        (fun x hx => hsp.1 x hx)
        (fun x hx => hsle x (List.mem_cons_of_mem _ hx)) hlen h2
      rw [hout]
      simp [List.filter_cons, interiorP]
    · have h2 : (match (s0 :: stail).getLast? with
            | none => none
            | some last =>
              if last = vec.length then
                if vec.length = 0 then none
                else if vec.length - 1 < (s0 :: stail).length then
                  splitLoop vec 0 ((s0 :: stail).eraseIdx (vec.length - 1))
                else none
              else splitLoop vec 0 (s0 :: stail)) = some out := by
        simp only [if_neg h0] at h
        exact h
      exact split_stage2 vec (s0 :: stail) out
        (List.pairwise_cons.mpr hsp)
        (by
          intro x hx
          rcases List.mem_cons.mp hx with h1 | h1
          · subst h1; omega
          · have := hsp.1 x h1; omega)
        hsle hlen h2

/-! ## C3: collection, mapM and dropWhile lemmas -/

theorem findIdx?_some_facts {α : Type} (p : α → Bool) : ∀ (l : List α) (i0 k : Nat),
    List.findIdx? p l i0 = some k →
    i0 ≤ k ∧ k - i0 < l.length ∧ ∃ x, l[k - i0]? = some x ∧ p x = true := by
  intro l
  induction l with
  | nil => intro i0 k h; cases h
  | cons x xs ih =>
    intro i0 k h
    rw [List.findIdx?_cons] at h
    by_cases hp : p x
    · rw [if_pos hp] at h
      have hk : i0 = k := by injection h
      subst hk
      exact ⟨le_refl i0, by simp, x, by simp, hp⟩
    · rw [if_neg hp] at h
      obtain ⟨h1, h2, y, hy, hpy⟩ := ih (i0 + 1) k h
      refine ⟨by omega, by simp; omega, y, ?_, hpy⟩
      have hd : k - i0 = (k - (i0 + 1)) + 1 := by omega
      rw [hd]
      simpa using hy

theorem get_index_for_pos_facts (instrs : List (Nat × Instruction)) (b tp : Nat)
    (h : get_index_for_pos instrs b = some tp) :
    tp < instrs.length ∧ ∃ q, instrs[tp]? = some q ∧ q.1 = b := by
  unfold get_index_for_pos at h
  obtain ⟨h1, h2, q, hq, hpq⟩ := findIdx?_some_facts (fun p => p.1 == b) instrs 0 tp h
  simp only [Nat.sub_zero] at h2 hq
  exact ⟨h2, q, hq, by simpa using hpq⟩

theorem collect_bound (full : List (Nat × Instruction)) :
    ∀ (l : List (Nat × Instruction)) (i0 : Nat) (ji : List Nat),
      collectJumpIndices full l i0 = some ji →
      ∀ x ∈ ji, x ≤ max full.length (i0 + l.length) := by
  intro l
  induction l with
  | nil =>
    intro i0 ji h x hx
    have hji : ji = [] := by injection h.symm
    subst hji
    cases hx
  | cons a rest ih =>
    intro i0 ji h x hx
    obtain ⟨pc, ins⟩ := a
    simp only [collectJumpIndices] at h
    cases hcb : condBranch ins with
    | some b =>
      rw [hcb] at h
      have h2 : (match get_index_for_pos full b with
          | none => none
          | some tp =>
            match collectJumpIndices full rest (i0 + 1) with
            | none => none
            | some tl => some (tp :: (i0 + 1) :: tl)) = some ji := h
      cases hgi : get_index_for_pos full b with
      | none =>
        rw [hgi] at h2
        have h3 : (none : Option (List Nat)) = some ji := h2
        cases h3
      | some tp =>
        rw [hgi] at h2
        have h3 : (match collectJumpIndices full rest (i0 + 1) with
            | none => none
            | some tl => some (tp :: (i0 + 1) :: tl)) = some ji := h2
        cases hcr : collectJumpIndices full rest (i0 + 1) with
        | none =>
          rw [hcr] at h3
          have h4 : (none : Option (List Nat)) = some ji := h3
          cases h4
        | some tl =>
          rw [hcr] at h3
          have h4 : some (tp :: (i0 + 1) :: tl) = some ji := h3
          have hji : ji = tp :: (i0 + 1) :: tl := by injection h4 with hh; exact hh.symm
          subst hji
          have htp : tp < full.length := (get_index_for_pos_facts full b tp hgi).1
          rcases List.mem_cons.mp hx with h1 | h1
          · subst h1; omega
          · rcases List.mem_cons.mp h1 with hm2 | hm2
            · subst hm2
              simp only [List.length_cons]
              omega
            · have := ih (i0 + 1) tl hcr x hm2
              simp only [List.length_cons]
              omega
    | none =>
      rw [hcb] at h
      have h2 : (match gotoBranch ins with
          | some b =>
            match get_index_for_pos full b with
            | none => none
            | some jp =>
              match collectJumpIndices full rest (i0 + 1) with
              | none => none
              | some tl => some (jp :: tl)
          | none => collectJumpIndices full rest (i0 + 1)) = some ji := h
      cases hgb : gotoBranch ins with
      | some b =>
        rw [hgb] at h2
        have h3 : (match get_index_for_pos full b with
            | none => none
            | some jp =>
              match collectJumpIndices full rest (i0 + 1) with
              | none => none
              | some tl => some (jp :: tl)) = some ji := h2
        cases hgi : get_index_for_pos full b with
        | none =>
          rw [hgi] at h3
          have h4 : (none : Option (List Nat)) = some ji := h3
          cases h4
        | some jp =>
          rw [hgi] at h3
          have h4 : (match collectJumpIndices full rest (i0 + 1) with
              | none => none
              | some tl => some (jp :: tl)) = some ji := h3
          cases hcr : collectJumpIndices full rest (i0 + 1) with
          | none =>
            rw [hcr] at h4
            have h5 : (none : Option (List Nat)) = some ji := h4
            cases h5
          | some tl =>
            rw [hcr] at h4
            have h5 : some (jp :: tl) = some ji := h4
            have hji : ji = jp :: tl := by injection h5 with hh; exact hh.symm
            subst hji
            have hjp : jp < full.length := (get_index_for_pos_facts full b jp hgi).1
            rcases List.mem_cons.mp hx with h1 | h1
            · subst h1; omega
            · have := ih (i0 + 1) tl hcr x h1
              simp only [List.length_cons]
              omega
      | none =>
        rw [hgb] at h2
        have h3 : collectJumpIndices full rest (i0 + 1) = some ji := h2
        have := ih (i0 + 1) ji h3 x hx
        simp only [List.length_cons]
        omega

theorem collect_mem_cond (full : List (Nat × Instruction)) :
    ∀ (l : List (Nat × Instruction)) (i0 j : Nat) (ji : List Nat)
      (pc : Nat) (ins : Instruction) (b : Nat),
      collectJumpIndices full l i0 = some ji →
      l[j]? = some (pc, ins) → condBranch ins = some b →
      ∃ tp, get_index_for_pos full b = some tp ∧ tp ∈ ji ∧ (i0 + j + 1) ∈ ji := by
  intro l
  induction l with
  | nil => intro i0 j ji pc ins b _ hj _; cases hj
  | cons a rest ih =>
    intro i0 j ji pc ins b h hj hcb2
    obtain ⟨pc0, ins0⟩ := a
    simp only [collectJumpIndices] at h
    cases j with
    | zero =>
      have ha : pc0 = pc ∧ ins0 = ins := by
        have : ((pc0, ins0) : Nat × Instruction) = (pc, ins) := by
          simpa using hj
        exact ⟨congrArg Prod.fst this, congrArg Prod.snd this⟩
      obtain ⟨rfl, rfl⟩ := ha
      rw [hcb2] at h
      have h2 : (match get_index_for_pos full b with
          | none => none
          | some tp =>
            match collectJumpIndices full rest (i0 + 1) with
            | none => none
            | some tl => some (tp :: (i0 + 1) :: tl)) = some ji := h
      cases hgi : get_index_for_pos full b with
      | none =>
        rw [hgi] at h2
        have h3 : (none : Option (List Nat)) = some ji := h2
        cases h3
      | some tp =>
        rw [hgi] at h2
        have h3 : (match collectJumpIndices full rest (i0 + 1) with
            | none => none
            | some tl => some (tp :: (i0 + 1) :: tl)) = some ji := h2
        cases hcr : collectJumpIndices full rest (i0 + 1) with
        | none =>
          rw [hcr] at h3
          have h4 : (none : Option (List Nat)) = some ji := h3
          cases h4
        | some tl =>
          rw [hcr] at h3
          have h4 : some (tp :: (i0 + 1) :: tl) = some ji := h3
          have hji : ji = tp :: (i0 + 1) :: tl := by injection h4 with hh; exact hh.symm
          subst hji
          exact ⟨tp, rfl, List.mem_cons_self _ _,
            List.mem_cons_of_mem _ (List.mem_cons_self _ _)⟩
    | succ j2 =>
      have hj2 : rest[j2]? = some (pc, ins) := by simpa using hj
      cases hcb : condBranch ins0 with
      | some b0 =>
        rw [hcb] at h
        have h2 : (match get_index_for_pos full b0 with
            | none => none
            | some tp =>
              match collectJumpIndices full rest (i0 + 1) with
              | none => none
              | some tl => some (tp :: (i0 + 1) :: tl)) = some ji := h
        cases hgi : get_index_for_pos full b0 with
        | none =>
          rw [hgi] at h2
          have h3 : (none : Option (List Nat)) = some ji := h2
          cases h3
        | some tp0 =>
          rw [hgi] at h2
          have h3 : (match collectJumpIndices full rest (i0 + 1) with
              | none => none
              | some tl => some (tp0 :: (i0 + 1) :: tl)) = some ji := h2
          cases hcr : collectJumpIndices full rest (i0 + 1) with
          | none =>
            rw [hcr] at h3
            have h4 : (none : Option (List Nat)) = some ji := h3
            cases h4
          | some tl =>
            rw [hcr] at h3
            have h4 : some (tp0 :: (i0 + 1) :: tl) = some ji := h3
            have hji : ji = tp0 :: (i0 + 1) :: tl := by injection h4 with hh; exact hh.symm
            subst hji
            obtain ⟨tp, hget, htp, hnext⟩ := ih (i0 + 1) j2 tl pc ins b hcr hj2 hcb2
            refine ⟨tp, hget, List.mem_cons_of_mem _ (List.mem_cons_of_mem _ htp), ?_⟩
            have harith : i0 + 1 + j2 + 1 = i0 + (j2 + 1) + 1 := by omega
            rw [harith] at hnext
            exact List.mem_cons_of_mem _ (List.mem_cons_of_mem _ hnext)
      | none =>
        rw [hcb] at h
        have h2 : (match gotoBranch ins0 with
            | some b0 =>
              match get_index_for_pos full b0 with
              | none => none
              | some jp =>
                match collectJumpIndices full rest (i0 + 1) with
                | none => none
                | some tl => some (jp :: tl)
            | none => collectJumpIndices full rest (i0 + 1)) = some ji := h
        cases hgb : gotoBranch ins0 with
        | some b0 =>
          rw [hgb] at h2
          have h3 : (match get_index_for_pos full b0 with
              | none => none
              | some jp =>
                match collectJumpIndices full rest (i0 + 1) with
                | none => none
                | some tl => some (jp :: tl)) = some ji := h2
          cases hgi : get_index_for_pos full b0 with
          | none =>
            rw [hgi] at h3
            have h4 : (none : Option (List Nat)) = some ji := h3
            cases h4
          | some jp =>
            rw [hgi] at h3
            have h4 : (match collectJumpIndices full rest (i0 + 1) with
                | none => none
                | some tl => some (jp :: tl)) = some ji := h3
            cases hcr : collectJumpIndices full rest (i0 + 1) with
            | none =>
              rw [hcr] at h4
              have h5 : (none : Option (List Nat)) = some ji := h4
              cases h5
            | some tl =>
              rw [hcr] at h4
              have h5 : some (jp :: tl) = some ji := h4
              have hji : ji = jp :: tl := by injection h5 with hh; exact hh.symm
              subst hji
              obtain ⟨tp, hget, htp, hnext⟩ := ih (i0 + 1) j2 tl pc ins b hcr hj2 hcb2
              refine ⟨tp, hget, List.mem_cons_of_mem _ htp, ?_⟩
              have harith : i0 + 1 + j2 + 1 = i0 + (j2 + 1) + 1 := by omega
              rw [harith] at hnext
              exact List.mem_cons_of_mem _ hnext
        | none =>
          rw [hgb] at h2
          have h3 : collectJumpIndices full rest (i0 + 1) = some ji := h2
          obtain ⟨tp, hget, htp, hnext⟩ := ih (i0 + 1) j2 ji pc ins b h3 hj2 hcb2
          refine ⟨tp, hget, htp, ?_⟩
          have harith : i0 + 1 + j2 + 1 = i0 + (j2 + 1) + 1 := by omega
          rw [harith] at hnext
          exact hnext

theorem mapM_option_forall2 {α β : Type} (f : α → Option β) :
    ∀ (l : List α) (l2 : List β), l.mapM f = some l2 →
      List.Forall₂ (fun a b => f a = some b) l l2 := by
  intro l
  induction l with
  | nil =>
    intro l2 h
    have hl2 : l2 = [] := by
      simp only [List.mapM_nil, pure, Option.pure_def] at h  -- hmm adjust
      injection h with hh
      exact hh.symm
    subst hl2
    exact List.Forall₂.nil
  | cons a rest ih =>
    intro l2 h
    rw [List.mapM_cons] at h
    cases hfa : f a with
    | none => rw [hfa] at h; cases h
    | some b =>
      rw [hfa] at h
      cases hrest : rest.mapM f with
      | none => rw [hrest] at h; cases h
      | some bs =>
        rw [hrest] at h
        have h2 : some (b :: bs) = some l2 := h
        have hl2 : l2 = b :: bs := by injection h2 with hh; exact hh.symm
        subst hl2
        exact List.Forall₂.cons hfa (ih bs hrest)

theorem forall2_mem_right {α β : Type} {R : α → β → Prop} :
    ∀ {l : List α} {l2 : List β}, List.Forall₂ R l l2 → ∀ b ∈ l2, ∃ a ∈ l, R a b := by
  intro l l2 h
  induction h with
  | nil => intro b hb; cases hb
  | cons hr _ ih =>
    intro b hb
    rcases List.mem_cons.mp hb with h1 | h1
    · subst h1; exact ⟨_, List.mem_cons_self _ _, hr⟩
    · obtain ⟨a, ha, har⟩ := ih b h1
      exact ⟨a, List.mem_cons_of_mem _ ha, har⟩

theorem forall2_mem_left {α β : Type} {R : α → β → Prop} :
    ∀ {l : List α} {l2 : List β}, List.Forall₂ R l l2 → ∀ a ∈ l, ∃ b ∈ l2, R a b := by
  intro l l2 h
  induction h with
  | nil => intro a ha; cases ha
  | cons hr _ ih =>
    intro a ha
    rcases List.mem_cons.mp ha with h1 | h1
    · subst h1; exact ⟨_, List.mem_cons_self _ _, hr⟩
    · obtain ⟨b, hb, hbr⟩ := ih a h1
      exact ⟨b, List.mem_cons_of_mem _ hb, hbr⟩

theorem forall2_map_eq {α β γ : Type} {R : α → β → Prop} (g : α → γ) (g2 : β → γ) :
    ∀ {l : List α} {l2 : List β}, List.Forall₂ R l l2 →
      (∀ a b, R a b → g a = g2 b) → l.map g = l2.map g2 := by
  intro l l2 h hgg
  induction h with
  | nil => rfl
  | cons hr _ ih => simp only [List.map_cons, ih, hgg _ _ hr]

theorem dropWhile_pc : ∀ (e : Nat) (v : List (Nat × Instruction)) (x : Nat × Instruction),
    List.Pairwise (fun p q => p.1 < q.1) v → v[e]? = some x →
    v.dropWhile (fun q => q.1 ≤ x.1) = v.drop (e + 1) := by
  intro e
  induction e with
  | zero =>
    intro v x hp hx
    cases v with
    | nil => cases hx
    | cons y tl =>
      have hxy : y = x := by simpa using hx
      subst hxy
      rw [List.pairwise_cons] at hp
      rw [List.dropWhile_cons, if_pos (by simp)]
      cases tl with
      | nil => rfl
      | cons z tl2 =>
        rw [List.dropWhile_cons, if_neg]
        · rfl
        · simp only [decide_eq_true_eq]
          have := hp.1 z (List.mem_cons_self z tl2)
          omega
  | succ e2 ih =>
    intro v x hp hx
    cases v with
    | nil => cases hx
    | cons y tl =>
      have hx2 : tl[e2]? = some x := by simpa using hx
      rw [List.pairwise_cons] at hp
      have hxmem : x ∈ tl := by
        obtain ⟨hlt, rfl⟩ := List.getElem?_eq_some.mp hx2
        exact List.getElem_mem hlt
      rw [List.dropWhile_cons, if_pos]
      · rw [List.drop_succ_cons]
        exact ih tl x hp.2 hx2
      · simp only [decide_eq_true_eq]
        exact le_of_lt (hp.1 x hxmem)

theorem foldl_hmInsert {b : Type} :
    ∀ (l : List (Nat × b)) (acc : List (Nat × b)),
      (((acc ++ l).map Prod.fst).Nodup) →
      l.foldl (fun m kb => hmInsert m kb.1 kb.2) acc = acc ++ l := by
  intro l
  induction l with
  | nil => intro acc _; simp
  | cons kb rest ih =>
    intro acc hnd
    have hfresh : ∀ q ∈ acc, q.1 ≠ kb.1 := by
      intro q hq hqk
      rw [List.map_append, List.nodup_append] at hnd
      have hm1 : q.1 ∈ acc.map Prod.fst := List.mem_map_of_mem Prod.fst hq
      have hm2 : q.1 ∈ (kb :: rest).map Prod.fst := by
        rw [hqk]
        exact List.mem_map_of_mem Prod.fst (List.mem_cons_self kb rest)
      exact hnd.2.2 hm1 hm2
    simp only [List.foldl_cons]
    rw [hmInsert_fresh acc kb.1 kb.2 hfresh]
    have hacc : acc ++ [(kb.1, kb.2)] = acc ++ [kb] := by simp
    rw [hacc, ih (acc ++ [kb]) (by simpa using hnd)]
    simp

theorem blocks_key_mem {chunks : List (List (Nat × Instruction))}
    {blocks : List (Nat × Block)}
    (hf : List.Forall₂ (fun c kb => mkRawBlock c = some kb) chunks blocks) :
    ∀ kb ∈ blocks, kb.1 ∈ chunks.flatten.map Prod.fst := by
  induction hf with
  | nil => intro kb hkb; cases hkb
  | @cons c kb2 chunks2 blocks2 hr hrest ih =>
    intro kb hkb
    rcases List.mem_cons.mp hkb with h1 | h1
    · unfold mkRawBlock at hr
      cases hc : c.head? with
      | none => rw [hc] at hr; cases hr
      | some hd =>
        rw [hc] at hr
        have h2 : some (hd.1, Block.mk c []) = some kb2 := hr
        have hkb2 : kb2 = (hd.1, Block.mk c []) := by injection h2 with hh; exact hh.symm
        rw [h1, hkb2]
        simp only [List.flatten_cons, List.map_append, List.mem_append]
        left
        exact List.mem_map_of_mem Prod.fst (List.mem_of_mem_head? hc)
    · simp only [List.flatten_cons, List.map_append, List.mem_append]
      right
      exact ih kb h1

theorem blocks_keys_nodup {chunks : List (List (Nat × Instruction))}
    {blocks : List (Nat × Block)}
    (hf : List.Forall₂ (fun c kb => mkRawBlock c = some kb) chunks blocks)
    (hnd : (chunks.flatten.map Prod.fst).Nodup) : (blocks.map Prod.fst).Nodup := by
  induction hf with
  | nil => exact List.nodup_nil
  | @cons c kb chunks2 blocks2 hr hrest ih =>
    simp only [List.flatten_cons, List.map_append, List.nodup_append] at hnd
    simp only [List.map_cons, List.nodup_cons]
    refine ⟨?_, ih hnd.2.1⟩
    intro hmem
    obtain ⟨kb2, hkb2, hkb2e⟩ := List.mem_map.mp hmem
    have hk2 : kb2.1 ∈ chunks2.flatten.map Prod.fst := blocks_key_mem hrest kb2 hkb2
    unfold mkRawBlock at hr
    cases hc : c.head? with
    | none => rw [hc] at hr; cases hr
    | some hd =>
      rw [hc] at hr
      have h2 : some (hd.1, Block.mk c []) = some kb := hr
      have hkb : kb = (hd.1, Block.mk c []) := by injection h2 with hh; exact hh.symm
      subst hkb
      have hhd : hd.1 ∈ c.map Prod.fst := List.mem_map_of_mem Prod.fst (List.mem_of_mem_head? hc)
      exact hnd.2.2 hhd (by rw [← hkb2e]; exact hk2)

theorem storeJumps_fields (instrs : List (Nat × Instruction)) (kb kb2 : Nat × Block)
    (h : storeJumps instrs kb = some kb2) :
    kb2.1 = kb.1 ∧ kb2.2.instructions = kb.2.instructions := by
  unfold storeJumps at h
  cases hl : kb.2.instructions.getLast? with
  | none => rw [hl] at h; cases h
  | some lastp =>
    rw [hl] at h
    have h2 : (match condBranch lastp.2 with
        | some b =>
          match (instrs.dropWhile (fun el => el.1 ≤ lastp.1)).head? with
          | none => none
          | some n => some (kb.1, ⟨kb.2.instructions, [b, n.1]⟩)
        | none =>
          match gotoBranch lastp.2 with
          | some b => some (kb.1, ⟨kb.2.instructions, [b]⟩)
          | none =>
            if isReturnInstr lastp.2 then some (kb.1, ⟨kb.2.instructions, []⟩)
            else
              match (instrs.dropWhile (fun el => el.1 ≤ lastp.1)).head? with
              | none => none
              | some n => some (kb.1, ⟨kb.2.instructions, [n.1]⟩)) = some kb2 := h
    clear h
    cases hc : condBranch lastp.2 with
    | some b =>
      rw [hc] at h2
      have h3 : (match (instrs.dropWhile (fun el => el.1 ≤ lastp.1)).head? with
          | none => none
          | some n => some (kb.1, ⟨kb.2.instructions, [b, n.1]⟩)) = some kb2 := h2
      cases hn : (instrs.dropWhile (fun el => el.1 ≤ lastp.1)).head? with
      | none =>
        rw [hn] at h3
        have h4 : (none : Option (Nat × Block)) = some kb2 := h3
        cases h4
      | some n =>
        rw [hn] at h3
        have h4 : some ((kb.1, Block.mk kb.2.instructions [b, n.1]) : Nat × Block) = some kb2 := h3
        have hkb2 : kb2 = (kb.1, Block.mk kb.2.instructions [b, n.1]) := by
          injection h4 with hh
          exact hh.symm
        rw [hkb2]
        exact ⟨rfl, rfl⟩
    | none =>
      rw [hc] at h2
      have h3 : (match gotoBranch lastp.2 with
          | some b => some ((kb.1, Block.mk kb.2.instructions [b]) : Nat × Block)
          | none =>
            if isReturnInstr lastp.2 then some (kb.1, ⟨kb.2.instructions, []⟩)
            else
              match (instrs.dropWhile (fun el => el.1 ≤ lastp.1)).head? with
              | none => none
              | some n => some (kb.1, ⟨kb.2.instructions, [n.1]⟩)) = some kb2 := h2
      cases hg : gotoBranch lastp.2 with
      | some b =>
        rw [hg] at h3
        have h4 : some ((kb.1, Block.mk kb.2.instructions [b]) : Nat × Block) = some kb2 := h3
        have hkb2 : kb2 = (kb.1, Block.mk kb.2.instructions [b]) := by
          injection h4 with hh
          exact hh.symm
        rw [hkb2]
        exact ⟨rfl, rfl⟩
      | none =>
        rw [hg] at h3
        have h4 : (if isReturnInstr lastp.2 then
              some ((kb.1, Block.mk kb.2.instructions []) : Nat × Block)
            else
              match (instrs.dropWhile (fun el => el.1 ≤ lastp.1)).head? with
              | none => none
              | some n => some (kb.1, ⟨kb.2.instructions, [n.1]⟩)) = some kb2 := h3
        by_cases hret : isReturnInstr lastp.2
        · rw [if_pos hret] at h4
          have hkb2 : kb2 = (kb.1, Block.mk kb.2.instructions []) := by
            injection h4 with hh
            exact hh.symm
          rw [hkb2]
          exact ⟨rfl, rfl⟩
        · rw [if_neg hret] at h4
          cases hn : (instrs.dropWhile (fun el => el.1 ≤ lastp.1)).head? with
          | none =>
            rw [hn] at h4
            have h5 : (none : Option (Nat × Block)) = some kb2 := h4
            cases h5
          | some n =>
            rw [hn] at h4
            have h5 : some ((kb.1, Block.mk kb.2.instructions [n.1]) : Nat × Block) = some kb2 := h4
            have hkb2 : kb2 = (kb.1, Block.mk kb.2.instructions [n.1]) := by
              injection h5 with hh
              exact hh.symm
            rw [hkb2]
            exact ⟨rfl, rfl⟩

theorem storeJumps_cond_some (instrs : List (Nat × Instruction)) (kb : Nat × Block)
    (lastp n : Nat × Instruction) (b : Nat)
    (hl : kb.2.instructions.getLast? = some lastp) (hc : condBranch lastp.2 = some b)
    (hn : (instrs.dropWhile (fun q => q.1 ≤ lastp.1)).head? = some n) :
    storeJumps instrs kb = some (kb.1, ⟨kb.2.instructions, [b, n.1]⟩) := by
  simp only [storeJumps, hl, hc, hn]

theorem storeJumps_cond_none (instrs : List (Nat × Instruction)) (kb : Nat × Block)
    (lastp : Nat × Instruction) (b : Nat)
    (hl : kb.2.instructions.getLast? = some lastp) (hc : condBranch lastp.2 = some b)
    (hn : (instrs.dropWhile (fun q => q.1 ≤ lastp.1)).head? = none) :
    storeJumps instrs kb = none := by
  simp only [storeJumps, hl, hc, hn]

theorem mkRawBlock_eq (c : List (Nat × Instruction)) (kb : Nat × Block)
    (h : mkRawBlock c = some kb) :
    ∃ hd, c.head? = some hd ∧ kb = (hd.1, ⟨c, []⟩) := by
  unfold mkRawBlock at h
  cases hc : c.head? with
  | none => rw [hc] at h; cases h
  | some hd =>
    rw [hc] at h
    have h2 : some ((hd.1, Block.mk c []) : Nat × Block) = some kb := h
    exact ⟨hd, rfl, by injection h2 with hh; exact hh.symm⟩

theorem flatten_last {α : Type} : ∀ (chunks : List (List α)) (v : List α),
    chunks.flatten = v → v ≠ [] → ∃ c ∈ chunks, c.getLast? = v.getLast? := by
  intro chunks
  induction chunks with
  | nil =>
    intro v hf hne
    exact absurd hf.symm hne
  | cons c rest ih =>
    intro v hf hne
    by_cases hr : rest.flatten = []
    · refine ⟨c, List.mem_cons_self _ _, ?_⟩
      rw [← hf]
      simp only [List.flatten_cons, hr, List.append_nil]
    · obtain ⟨c2, hc2, hc2l⟩ := ih rest.flatten rfl hr
      refine ⟨c2, List.mem_cons_of_mem _ hc2, ?_⟩
      rw [← hf]
      simp only [List.flatten_cons]
      rw [List.getLast?_append_of_ne_nil c hr]
      exact hc2l

/-! ## Claim C3 -/

/-- A chunk of the split that starts at list index `st` yields a raw
block keyed by the pc stored at that index. -/
theorem chunk_head_key (instrs : List (Nat × Instruction))
    (raw : List (List (Nat × Instruction))) (blocks : List (Nat × Block))
    (st : Nat) (q : Nat × Instruction)
    (hf2 : List.Forall₂ (fun c kb => mkRawBlock c = some kb) raw blocks)
    (c : List (Nat × Instruction)) (hc : c ∈ raw)
    (hch : c.head? = instrs[st]?) (hq : instrs[st]? = some q) :
    q.1 ∈ blocks.map Prod.fst := by
  obtain ⟨kb, hkb, hkbr⟩ := forall2_mem_left hf2 c hc
  obtain ⟨hd, hhd, hkbe⟩ := mkRawBlock_eq c kb hkbr
  rw [hch, hq] at hhd
  have hdq : q = hd := by injection hhd with hh
  have hk1 : kb.1 = q.1 := by rw [hkbe, hdq]
  rw [← hk1]
  exact List.mem_map_of_mem Prod.fst hkb

/-- C3 (amended): for the twelve conditionals the builder actually
handles (`ifeq`/`ifne`/`iflt`/`ifge`/`ifgt`/`ifle` and the six
`if_icmp*` forms, i.e. exactly those `condBranch` maps to a target),
whenever `gen_control_flow_graph` succeeds on a decoded list with
strictly increasing pcs and length ≠ 1, each such conditional has a
following instruction, both its branch-target pc and that fall-through
pc are block keys, and the block ending at the conditional lists
`[branch_target, fall_through_pc]` as its successors.  (`if_acmp*`,
`ifnull` and `ifnonnull` are NOT handled: see the counterexample.) -/
theorem C3_condbranch_splits_amended
    (instrs : List (Nat × Instruction)) (cfg : List (Nat × Block))
    (i pci b : Nat) (ins : Instruction)
    (hmono : List.Pairwise (fun p q => p.1 < q.1) instrs)
    (hlen1 : instrs.length ≠ 1)
    (hgen : gen_control_flow_graph instrs = some cfg)
    (hi : instrs[i]? = some (pci, ins))
    (hcb : condBranch ins = some b) :
    ∃ pcF insF, instrs[i + 1]? = some (pcF, insF) ∧
      b ∈ cfg.map Prod.fst ∧ pcF ∈ cfg.map Prod.fst ∧
      ∃ k blk, (k, blk) ∈ cfg ∧
        blk.instructions.getLast? = some (pci, ins) ∧ blk.branches = [b, pcF] := by
  unfold gen_control_flow_graph at hgen
  cases hji : collectJumpIndices instrs instrs 0 with
  | none =>
    rw [hji] at hgen
    have h2 : (none : Option (List (Nat × Block))) = some cfg := hgen
    cases h2
  | some ji =>
    rw [hji] at hgen
    have hg2 : (match split_at_multiple instrs ji with
        | none => none
        | some raw_blocks =>
          match raw_blocks.mapM mkRawBlock with
          | none => none
          | some blocks =>
            (blocks.foldl (fun m kb => hmInsert m kb.1 kb.2) []).mapM
              (storeJumps instrs)) = some cfg := hgen
    cases hsp : split_at_multiple instrs ji with
    | none =>
      rw [hsp] at hg2
      have h3 : (none : Option (List (Nat × Block))) = some cfg := hg2
      cases h3
    | some raw =>
      rw [hsp] at hg2
      have hg3 : (match raw.mapM mkRawBlock with
          | none => none
          | some blocks =>
            (blocks.foldl (fun m kb => hmInsert m kb.1 kb.2) []).mapM
              (storeJumps instrs)) = some cfg := hg2
      cases hmm : raw.mapM mkRawBlock with
      | none =>
        rw [hmm] at hg3
        have h4 : (none : Option (List (Nat × Block))) = some cfg := hg3
        cases h4
      | some blocks =>
        rw [hmm] at hg3
        have hcfg : (blocks.foldl (fun m kb => hmInsert m kb.1 kb.2) []).mapM
            (storeJumps instrs) = some cfg := hg3
        obtain ⟨hilen, hie⟩ := List.getElem?_eq_some.mp hi
        have hle : ∀ x ∈ ji, x ≤ instrs.length := by
          intro x hx
          have := collect_bound instrs instrs 0 ji hji x hx
          simpa using this
        obtain ⟨tp, hgip, htpji, hfji⟩ :=
          collect_mem_cond instrs instrs 0 i ji pci ins b hji hi hcb
        have hfji2 : i + 1 ∈ ji := by simpa using hfji
        obtain ⟨htplen, q, hq, hqb⟩ := get_index_for_pos_facts instrs b tp hgip
        have hraw : raw = segsA instrs 0
            ((sortDedup ji).filter (interiorP instrs.length) ++ [instrs.length]) :=
          split_at_multiple_eq instrs ji raw hle hlen1 hsp
        have hs2p : List.Pairwise (· < ·)
            ((sortDedup ji).filter (interiorP instrs.length)) :=
          List.Pairwise.filter (interiorP instrs.length) (sortDedup_pairwise ji)
        have hs2mem : ∀ x, x ∈ (sortDedup ji).filter (interiorP instrs.length) ↔
            (x ∈ ji ∧ 0 < x ∧ x < instrs.length) := by
          intro x
          rw [List.mem_filter, sortDedup_mem]
          simp [interiorP]
        have hbsle : ∀ x ∈ (sortDedup ji).filter (interiorP instrs.length) ++
            [instrs.length], x ≤ instrs.length := by
          intro x hx
          rcases List.mem_append.mp hx with h1 | h1
          · have := (hs2mem x).mp h1
            omega
          · simp only [List.mem_singleton] at h1
            omega
        have hbsp : List.Pairwise (· < ·) ((0 : Nat) ::
            ((sortDedup ji).filter (interiorP instrs.length) ++ [instrs.length])) := by
          rw [List.pairwise_cons]
          constructor
          · intro x hx
            rcases List.mem_append.mp hx with h1 | h1
            · exact ((hs2mem x).mp h1).2.1
            · simp only [List.mem_singleton] at h1
              omega
          · rw [List.pairwise_append]
            refine ⟨hs2p, List.pairwise_singleton _ _, ?_⟩
            intro x hx y hy
            simp only [List.mem_singleton] at hy
            subst hy
            exact ((hs2mem x).mp hx).2.2
        have hflat : raw.flatten = instrs := by
          rw [hraw, segsA_flatten instrs _ 0 hbsp hbsle]
          have hlast : (((sortDedup ji).filter (interiorP instrs.length)) ++
              [instrs.length]).getLastD 0 = instrs.length := by
            rw [List.getLastD_eq_getLast?, List.getLast?_concat]
            rfl
          rw [hlast]
          simp [List.take_of_length_le]
        have hf2 : List.Forall₂ (fun c kb => mkRawBlock c = some kb) raw blocks :=
          mapM_option_forall2 mkRawBlock raw blocks hmm
        have hndi : (instrs.map Prod.fst).Nodup := by
          have hp : List.Pairwise (· < ·) (instrs.map Prod.fst) :=
            List.pairwise_map.mpr hmono
          exact hp.imp (fun h => Nat.ne_of_lt h)
        have hndb : (blocks.map Prod.fst).Nodup :=
          blocks_keys_nodup hf2 (by rw [hflat]; exact hndi)
        have hfold : blocks.foldl (fun m kb => hmInsert m kb.1 kb.2) [] = blocks := by
          have := foldl_hmInsert blocks [] (by simpa using hndb)
          simpa using this
        rw [hfold] at hcfg
        have hf3 : List.Forall₂ (fun kb kb2 => storeJumps instrs kb = some kb2)
            blocks cfg :=
          mapM_option_forall2 (storeJumps instrs) blocks cfg hcfg
        have hkeys : blocks.map Prod.fst = cfg.map Prod.fst :=
          forall2_map_eq Prod.fst Prod.fst hf3
            (fun a c h => ((storeJumps_fields instrs a c h).1).symm)
        have hfl : i + 1 < instrs.length := by
          by_contra hge
          have hieq : i + 1 = instrs.length := by omega
          have hne : instrs ≠ [] := by
            intro h0
            rw [h0] at hilen
            simp at hilen
          obtain ⟨c, hcmem, hcl⟩ := flatten_last raw instrs hflat hne
          have hclast : c.getLast? = some (pci, ins) := by
            rw [hcl, List.getLast?_eq_getElem?]
            have hli : instrs.length - 1 = i := by omega
            rw [hli, hi]
          obtain ⟨kb, hkbm, hkbr⟩ := forall2_mem_left hf2 c hcmem
          obtain ⟨hd, hhd, hkbe⟩ := mkRawBlock_eq c kb hkbr
          obtain ⟨kb2, hkb2m, hkb2r⟩ := forall2_mem_left hf3 kb hkbm
          have hnone : storeJumps instrs kb = none := by
            apply storeJumps_cond_none instrs kb (pci, ins) b
            · rw [hkbe]
              exact hclast
            · exact hcb
            · have hdw : instrs.dropWhile (fun el => el.1 ≤ (pci, ins).1) =
                  instrs.drop (i + 1) :=
                dropWhile_pc i instrs (pci, ins) hmono hi
              rw [hdw, hieq, List.drop_length]
              rfl
          rw [hnone] at hkb2r
          cases hkb2r
        obtain ⟨pf, hpf⟩ : ∃ x, instrs[i + 1]? = some x :=
          ⟨instrs.get ⟨i + 1, hfl⟩, List.getElem?_eq_getElem hfl⟩
        obtain ⟨pcF, insF⟩ := pf
        have hfls2 : (i + 1) ∈ (sortDedup ji).filter (interiorP instrs.length) :=
          (hs2mem (i + 1)).mpr ⟨hfji2, by omega, hfl⟩
        have hfldrop : (i + 1) ∈ ((sortDedup ji).filter (interiorP instrs.length) ++
            [instrs.length]).dropLast := by
          rw [List.dropLast_concat]
          exact hfls2
        obtain ⟨c, hcmem, hcl⟩ := segsA_last instrs
          ((sortDedup ji).filter (interiorP instrs.length) ++ [instrs.length])
          0 (i + 1) hbsp hbsle hfldrop
        rw [← hraw] at hcmem
        have hclast : c.getLast? = some (pci, ins) := by
          rw [hcl]
          have hsub : i + 1 - 1 = i := by omega
          rw [hsub, hi]
        obtain ⟨kb, hkbm, hkbr⟩ := forall2_mem_left hf2 c hcmem
        obtain ⟨hd, hhd, hkbe⟩ := mkRawBlock_eq c kb hkbr
        obtain ⟨kb2, hkb2m, hkb2r⟩ := forall2_mem_left hf3 kb hkbm
        have hsome : storeJumps instrs kb =
            some (kb.1, ⟨kb.2.instructions, [b, pcF]⟩) := by
          apply storeJumps_cond_some instrs kb (pci, ins) (pcF, insF) b
          · rw [hkbe]
            exact hclast
          · exact hcb
          · have hdw : instrs.dropWhile (fun el => el.1 ≤ (pci, ins).1) =
                instrs.drop (i + 1) :=
              dropWhile_pc i instrs (pci, ins) hmono hi
            rw [hdw, List.head?_drop, hpf]
        have hkb2 : kb2 = (kb.1, ⟨kb.2.instructions, [b, pcF]⟩) := by
          rw [hsome] at hkb2r
          injection hkb2r with hh
          exact hh.symm
        have hbkey : b ∈ cfg.map Prod.fst := by
          rw [← hkeys]
          have htpin : tp ∈ (0 : Nat) ::
              ((sortDedup ji).filter (interiorP instrs.length) ++
                [instrs.length]).dropLast := by
            rw [List.dropLast_concat]
            by_cases h0 : tp = 0
            · rw [h0]
              exact List.mem_cons_self _ _
            · exact List.mem_cons_of_mem _
                ((hs2mem tp).mpr ⟨htpji, by omega, htplen⟩)
          obtain ⟨c3, hc3mem, hc3h⟩ := segsA_head instrs
            ((sortDedup ji).filter (interiorP instrs.length) ++ [instrs.length])
            0 tp hbsp hbsle (by simp) htpin
          rw [← hraw] at hc3mem
          have hbq : q.1 ∈ blocks.map Prod.fst :=
            chunk_head_key instrs raw blocks tp q hf2 c3 hc3mem hc3h hq
          rw [hqb] at hbq
          exact hbq
        have hpfkey : pcF ∈ cfg.map Prod.fst := by
          rw [← hkeys]
          have hflin : (i + 1) ∈ (0 : Nat) ::
              ((sortDedup ji).filter (interiorP instrs.length) ++
                [instrs.length]).dropLast := by
            rw [List.dropLast_concat]
            exact List.mem_cons_of_mem _ hfls2
          obtain ⟨c4, hc4mem, hc4h⟩ := segsA_head instrs
            ((sortDedup ji).filter (interiorP instrs.length) ++ [instrs.length])
            0 (i + 1) hbsp hbsle (by simp) hflin
          rw [← hraw] at hc4mem
          exact chunk_head_key instrs raw blocks (i + 1) (pcF, insF) hf2
            c4 hc4mem hc4h hpf
        refine ⟨pcF, insF, hpf, hbkey, hpfkey, kb.1,
          ⟨kb.2.instructions, [b, pcF]⟩, ?_, ?_, rfl⟩
        · rw [← hkb2]
          exact hkb2m
        · rw [hkbe]
          exact hclast

/-- C3 counterexample: the claim includes `ifnull`/`ifnonnull`, but
`collectJumpIndices`/`storeJumps` match neither (their `condBranch` is
`none`), so an `ifnull` at pc 0 targeting pc 3 produces a single block
keyed 0 with no successors: 3 is not a key and no block lists
`[3, 3]`. -/
theorem C3_ifnull_counterexample :
    gen_control_flow_graph [(0, Instruction.IfNull 3), (3, Instruction.Return)] =
      some [(0, Block.mk [(0, Instruction.IfNull 3), (3, Instruction.Return)] [])] ∧
    ¬ (3 ∈ ([(0, Block.mk [(0, Instruction.IfNull 3), (3, Instruction.Return)] [])].map
        Prod.fst)) ∧
    condBranch (Instruction.IfNull 3) = none :=
  ⟨rfl, by simp, rfl⟩

/-- C3 witness: `[ifeq 3 @0, return @3, return @4]` is split at the
conditional: keys 0 and 3, and the block ending in the `ifeq` has
successors `[3, 3]` (branch target and fall-through coincide here in
pc value but come from the two distinct rules). -/
theorem C3_condbranch_splits_amended_witness :
    ∃ pcF insF,
      ([(0, Instruction.IfEq 3), (3, Instruction.Return), (4, Instruction.Return)] :
        List (Nat × Instruction))[0 + 1]? = some (pcF, insF) ∧
      3 ∈ ([(0, Block.mk [(0, Instruction.IfEq 3)] [3, 3]),
            (3, Block.mk [(3, Instruction.Return), (4, Instruction.Return)] [])].map
          Prod.fst) ∧
      pcF ∈ ([(0, Block.mk [(0, Instruction.IfEq 3)] [3, 3]),
            (3, Block.mk [(3, Instruction.Return), (4, Instruction.Return)] [])].map
          Prod.fst) ∧
      ∃ k blk, (k, blk) ∈ [(0, Block.mk [(0, Instruction.IfEq 3)] [3, 3]),
            (3, Block.mk [(3, Instruction.Return), (4, Instruction.Return)] [])] ∧
        blk.instructions.getLast? = some (0, Instruction.IfEq 3) ∧
        blk.branches = [3, pcF] :=
  C3_condbranch_splits_amended
    [(0, Instruction.IfEq 3), (3, Instruction.Return), (4, Instruction.Return)]
    [(0, Block.mk [(0, Instruction.IfEq 3)] [3, 3]),
     (3, Block.mk [(3, Instruction.Return), (4, Instruction.Return)] [])]
    0 0 3 (Instruction.IfEq 3)
    (by decide) (by decide) rfl rfl rfl
